import Mathlib

/-!
Verification of the probabilistic core of the `lymph` package (unilateral and
bilateral lymphatic progression models).  The Python sources in
`src/lymph/unilateral.py`, `src/lymph/system.py`, `src/lymph/helper.py` and
`src/lymph/models/bilateral.py` are embedded shallowly: numpy arrays become
lists or index functions over `ℚ`, python exceptions become `Except String`,
and the handful of helpers that live in modules not shipped here
(`node.py`, `edge.py`) are modelled from the specification, as marked in
their doc comments.
-/

namespace LymphVerif

/-! ### State enumeration (`change_base`, `Unilateral._gen_state_list`) -/

/-- The `q`-th binary digit (most significant first) of `i` written with
`len` digits; entry `q` of `change_base(i, 2, length=len)` in the source. -/
def digit2 (len i q : ℕ) : ℕ := i / 2 ^ (len - 1 - q) % 2

/-- Hidden state with index `i` over `L` LNLs: row `i` of the matrix built by
`Unilateral._gen_state_list` (base-2 counting, most significant digit first). -/
def stateOf (L i : ℕ) : List ℕ := (List.range L).map fun j => digit2 L i j

/-- The list of all hidden states, `Unilateral.state_list`. -/
def state_list (L : ℕ) : List (List ℕ) := (List.range (2 ^ L)).map (stateOf L)

theorem digit2_lt_two (len i q : ℕ) : digit2 len i q < 2 :=
  Nat.mod_lt _ (by norm_num)

theorem stateOf_length (L i : ℕ) : (stateOf L i).length = L := by
  simp [stateOf]

theorem getD_map_range {α : Type} (f : ℕ → α) (L j : ℕ) (d : α) (h : j < L) :
    ((List.range L).map f).getD j d = f j := by
  simp [List.getD_eq_getElem?_getD, List.getElem?_range h]

theorem stateOf_getD (L i j : ℕ) (h : j < L) :
    (stateOf L i).getD j 0 = digit2 L i j := by
  unfold stateOf
  exact getD_map_range _ L j 0 h

theorem stateOf_getD_lt_two (L i j : ℕ) : (stateOf L i).getD j 0 < 2 := by
  by_cases h : j < L
  · rw [stateOf_getD L i j h]; exact digit2_lt_two L i j
  · rw [List.getD_eq_default]
    · norm_num
    · rw [stateOf_length]; omega

theorem stateOf_zero (i : ℕ) : stateOf 0 i = [] := by simp [stateOf]

theorem stateOf_succ_lt (L i : ℕ) (h : i < 2 ^ L) :
    stateOf (L + 1) i = 0 :: stateOf L i := by
  unfold stateOf
  rw [List.range_succ_eq_map, List.map_cons, List.map_map]
  congr 1
  · have h0 : i / 2 ^ L = 0 := Nat.div_eq_of_lt h
    simp [digit2, h0]
  · apply List.map_congr_left
    intro j _
    simp only [Function.comp_apply, digit2, Nat.succ_eq_add_one]
    have hsub : L + 1 - 1 - (j + 1) = L - 1 - j := by omega
    rw [hsub]

theorem stateOf_succ_ge (L r : ℕ) (h : r < 2 ^ L) :
    stateOf (L + 1) (2 ^ L + r) = 1 :: stateOf L r := by
  unfold stateOf
  rw [List.range_succ_eq_map, List.map_cons, List.map_map]
  congr 1
  · have h0 : (2 ^ L + r) / 2 ^ L = 1 := by
      rw [Nat.add_comm, Nat.add_div_right _ (Nat.pos_pow_of_pos L (by norm_num)),
        Nat.div_eq_of_lt h]
    simp [digit2, h0]
  · apply List.map_congr_left
    intro j hj
    rw [List.mem_range] at hj
    simp only [Function.comp_apply, digit2, Nat.succ_eq_add_one]
    have hsub : L + 1 - 1 - (j + 1) = L - 1 - j := by omega
    rw [hsub]
    have hsplit : 2 ^ L = 2 ^ (L - 1 - j) * 2 ^ (j + 1) := by
      rw [← pow_add]
      congr 1
      omega
    rw [hsplit, Nat.mul_comm (2 ^ (L - 1 - j)) (2 ^ (j + 1)),
      Nat.mul_comm (2 ^ (j + 1)) (2 ^ (L - 1 - j))]
    rw [Nat.mul_add_div (Nat.pos_pow_of_pos _ (by norm_num))]
    have h2 : 2 ^ (j + 1) = 2 * 2 ^ j := by ring
    rw [h2, Nat.mul_comm 2 (2 ^ j), ← Nat.add_mul_mod_self_right (r / 2 ^ (L - 1 - j)) (2 ^ j) 2]
    ring_nf

theorem state_list_succ (L : ℕ) :
    state_list (L + 1)
      = (state_list L).map (fun s => 0 :: s) ++ (state_list L).map (fun s => 1 :: s) := by
  unfold state_list
  have hpow : (2:ℕ) ^ (L + 1) = 2 ^ L + 2 ^ L := by ring
  rw [hpow, List.range_add, List.map_append, List.map_map, List.map_map, List.map_map]
  congr 1
  · apply List.map_congr_left
    intro i hi
    rw [List.mem_range] at hi
    exact stateOf_succ_lt L i hi
  · apply List.map_congr_left
    intro r hr
    rw [List.mem_range] at hr
    simp only [Function.comp_apply]
    exact stateOf_succ_ge L r hr

theorem state_list_zero : state_list 0 = [[]] := by
  have h1 : List.range 1 = [0] := rfl
  simp [state_list, h1, stateOf]

theorem mem_state_list_length (L : ℕ) {s : List ℕ} (h : s ∈ state_list L) :
    s.length = L := by
  unfold state_list at h
  obtain ⟨i, _, rfl⟩ := List.mem_map.1 h
  exact stateOf_length L i

/-! ### Summing a product of per-position weights over all binary states -/

/-- Product of per-position weights applied along a state vector. -/
def prodAt (hs : List (ℕ → ℚ)) (s : List ℕ) : ℚ :=
  (List.zipWith (fun h v => h v) hs s).prod

theorem sum_prodAt (hs : List (ℕ → ℚ)) :
    ((state_list hs.length).map (fun s => prodAt hs s)).sum
      = (hs.map fun h => h 0 + h 1).prod := by
  induction hs with
  | nil => simp [state_list_zero, prodAt]
  | cons h t ih =>
    rw [List.length_cons, state_list_succ, List.map_append, List.sum_append,
      List.map_map, List.map_map]
    have e0 : ((state_list t.length).map ((fun s => prodAt (h :: t) s) ∘ fun s => 0 :: s))
        = (state_list t.length).map (fun s => h 0 * prodAt t s) := by
      apply List.map_congr_left
      intro s _
      simp [prodAt]
    have e1 : ((state_list t.length).map ((fun s => prodAt (h :: t) s) ∘ fun s => 1 :: s))
        = (state_list t.length).map (fun s => h 1 * prodAt t s) := by
      apply List.map_congr_left
      intro s _
      simp [prodAt]
    rw [e0, e1, List.sum_map_mul_left, List.sum_map_mul_left, ih, List.map_cons,
      List.prod_cons]
    ring

/-! ### Graph, edges and the transition matrix (`Unilateral`) -/

/-- The parent endpoint of an edge: either a tumor node (whose state is always 1,
spec §3) or the LNL at the given index of the `lnls` list. -/
inductive ParentRef where
  | tumor : ParentRef
  | lnl (idx : ℕ) : ParentRef
deriving DecidableEq

/-- An edge of the graph: parent node, index of the child LNL, and the spread
probability `t` stored on the edge. -/
structure SEdge where
  parent : ParentRef
  child : ℕ
  t : ℚ
deriving DecidableEq

/-- Whether the edge starts at a tumor (`edge.start.typ == "tumor"`). -/
def SEdge.isBase (e : SEdge) : Bool :=
  match e.parent with
  | ParentRef.tumor => true
  | ParentRef.lnl _ => false

/-- The graph of a `Unilateral` system: number of LNLs and all edges in
creation order. -/
structure Graph where
  numLNLs : ℕ
  edges : List SEdge
deriving DecidableEq

/-- Edges entering LNL `ℓ` (`lnl.inc`; edges are appended there at creation,
so the order is the global creation order). -/
def incEdges (g : Graph) (ℓ : ℕ) : List SEdge :=
  g.edges.filter fun e => e.child == ℓ

/-- State of an edge's parent node under the current LNL state assignment
`cur`; tumor nodes always have state 1 (spec §3). -/
def parentState (cur : List ℕ) : ParentRef → ℕ
  | ParentRef.tumor => 1
  | ParentRef.lnl k => cur.getD k 0

/-- Modelled from the spec: `node_trans_prob` of the missing `node.py`.
Under the independent-failure convention of spec §4.4, a healthy LNL stays
healthy with probability `∏ (1 - parent_state * t)` over its incoming edges
and becomes involved with one minus that; `v` indexes the returned pair. -/
def node_trans_prob (cur : List ℕ) (es : List SEdge) (v : ℕ) : ℚ :=
  if v = 0 then (es.map fun e => 1 - (parentState cur e.parent : ℚ) * e.t).prod
  else if v = 1 then 1 - (es.map fun e => 1 - (parentState cur e.parent : ℚ) * e.t).prod
  else 0

/-- `Unilateral.comp_transition_prob`: product over the currently healthy LNLs
of the per-node transition probability of reaching `new`; involved LNLs
contribute no factor. -/
def comp_transition_prob (g : Graph) (cur new : List ℕ) : ℚ :=
  ((List.range g.numLNLs).map fun ℓ =>
    if cur.getD ℓ 0 ≠ 0 then 1
    else node_trans_prob cur (incEdges g ℓ) (new.getD ℓ 0)).prod

/-- `Unilateral._gen_mask` for one pair of states: `j` belongs to `mask[i]`
iff `not np.any(np.greater(state_list[i], state_list[j]))`, i.e. no component
of state `i` exceeds the matching component of state `j`. -/
def inMask (L : ℕ) (cur new : List ℕ) : Bool :=
  decide (∀ ℓ < L, cur.getD ℓ 0 ≤ new.getD ℓ 0)

/-- `Unilateral._gen_A`: the transition matrix entry `(i, j)`.  `_gen_A` only
writes entries whose column is in `mask[i]`; all others stay at their initial
value zero. -/
def Amat (g : Graph) (i j : ℕ) : ℚ :=
  if inMask g.numLNLs (stateOf g.numLNLs i) (stateOf g.numLNLs j)
  then comp_transition_prob g (stateOf g.numLNLs i) (stateOf g.numLNLs j)
  else 0

theorem sum_range_map (f : ℕ → ℚ) (n : ℕ) :
    (∑ j ∈ Finset.range n, f j) = ((List.range n).map f).sum := by
  induction n with
  | zero => simp
  | succ n ih =>
    rw [Finset.sum_range_succ, List.range_succ, List.map_append, List.sum_append, ih]
    simp

theorem zipWith_range_eq_map (F : ℕ → ℕ → ℚ) (s : List ℕ) :
    List.zipWith (fun ℓ v => F ℓ v) (List.range s.length) s
      = (List.range s.length).map fun ℓ => F ℓ (s.getD ℓ 0) := by
  induction s generalizing F with
  | nil => simp
  | cons a tail ih =>
    rw [List.length_cons, List.range_succ_eq_map, List.zipWith_cons_cons,
      List.map_cons]
    congr 1
    rw [List.zipWith_map_left, ih (fun j v => F (j + 1) v), List.map_map]
    apply List.map_congr_left
    intro j _
    simp

/-- The per-position weight list whose `prodAt` equals the masked transition
probability of row `cur`. -/
def rowWeights (g : Graph) (cur : List ℕ) : List (ℕ → ℚ) :=
  (List.range g.numLNLs).map fun ℓ => fun v =>
    (if cur.getD ℓ 0 ≤ v then (1:ℚ) else 0) *
    (if cur.getD ℓ 0 ≠ 0 then 1 else node_trans_prob cur (incEdges g ℓ) v)

theorem rowWeights_length (g : Graph) (cur : List ℕ) :
    (rowWeights g cur).length = g.numLNLs := by
  simp [rowWeights]

theorem masked_trans_eq_prodAt (g : Graph) (cur : List ℕ) (s : List ℕ)
    (hs : s.length = g.numLNLs) :
    (if inMask g.numLNLs cur s then comp_transition_prob g cur s else 0)
      = prodAt (rowWeights g cur) s := by
  have hzip : prodAt (rowWeights g cur) s
      = ((List.range g.numLNLs).map fun ℓ =>
          (if cur.getD ℓ 0 ≤ s.getD ℓ 0 then (1:ℚ) else 0) *
          (if cur.getD ℓ 0 ≠ 0 then 1
           else node_trans_prob cur (incEdges g ℓ) (s.getD ℓ 0))).prod := by
    unfold prodAt rowWeights
    rw [← hs, List.zipWith_map_left]
    rw [zipWith_range_eq_map (fun ℓ v =>
      (if cur.getD ℓ 0 ≤ v then (1:ℚ) else 0) *
      (if cur.getD ℓ 0 ≠ 0 then 1 else node_trans_prob cur (incEdges g ℓ) v)) s]
  rw [hzip]
  by_cases hm : inMask g.numLNLs cur s
  · rw [if_pos hm]
    unfold inMask at hm
    rw [decide_eq_true_eq] at hm
    unfold comp_transition_prob
    apply congrArg
    apply List.map_congr_left
    intro ℓ hℓ
    rw [List.mem_range] at hℓ
    rw [if_pos (hm ℓ hℓ), one_mul]
  · rw [if_neg hm]
    unfold inMask at hm
    rw [decide_eq_true_eq] at hm
    push_neg at hm
    obtain ⟨ℓ, hℓ, hlt⟩ := hm
    apply Eq.symm
    apply List.prod_eq_zero
    apply List.mem_map.2
    refine ⟨ℓ, List.mem_range.2 hℓ, ?_⟩
    rw [if_neg (by omega), zero_mul]

theorem A_row_sum_eq_one (g : Graph) (i : ℕ) :
    (∑ j ∈ Finset.range (2 ^ g.numLNLs), Amat g i j) = 1 := by
  set cur := stateOf g.numLNLs i with hcur
  rw [sum_range_map]
  have hmap : (List.range (2 ^ g.numLNLs)).map (fun j => Amat g i j)
      = (state_list g.numLNLs).map
          (fun s => if inMask g.numLNLs cur s then comp_transition_prob g cur s else 0) := by
    unfold state_list
    rw [List.map_map]
    rfl
  rw [hmap]
  have hcongr : (state_list g.numLNLs).map
      (fun s => if inMask g.numLNLs cur s then comp_transition_prob g cur s else 0)
      = (state_list g.numLNLs).map (fun s => prodAt (rowWeights g cur) s) := by
    apply List.map_congr_left
    intro s hsmem
    exact masked_trans_eq_prodAt g cur s (mem_state_list_length _ hsmem)
  rw [hcongr]
  have hlen : g.numLNLs = (rowWeights g cur).length := (rowWeights_length g cur).symm
  rw [hlen, sum_prodAt]
  apply List.prod_eq_one
  intro x hx
  simp only [rowWeights, List.map_map] at hx
  obtain ⟨ℓ, _, rfl⟩ := List.mem_map.1 hx
  simp only [Function.comp_apply]
  have hlt : cur.getD ℓ 0 < 2 := stateOf_getD_lt_two g.numLNLs i ℓ
  have h01 : cur.getD ℓ 0 = 0 ∨ cur.getD ℓ 0 = 1 := by omega
  rcases h01 with h0 | h1
  · rw [h0]
    simp [node_trans_prob]
  · rw [h1]
    simp

/-- C1: for every graph and every assignment of edge spread probabilities in
`[0,1]`, each row of the transition matrix built by `Unilateral._gen_A` sums
to 1 up to a tolerance of `1e-9` (in exact arithmetic the sum is exactly 1). -/
theorem claim_A_rows_sum_to_one (g : Graph) (i : ℕ) (hi : i < 2 ^ g.numLNLs)
    (hprobs : ∀ e ∈ g.edges, 0 ≤ e.t ∧ e.t ≤ 1) :
    |(∑ j ∈ Finset.range (2 ^ g.numLNLs), Amat g i j) - 1| ≤ 1 / 1000000000 := by
  rw [A_row_sum_eq_one]
  norm_num

/-- A concrete one-tumor, one-LNL graph with spread probability 1/2, used by
several witnesses. -/
def exGraph : Graph := Graph.mk 1 [SEdge.mk ParentRef.tumor 0 (1/2)]

theorem exGraph_edge_bounds : ∀ e ∈ exGraph.edges, 0 ≤ e.t ∧ e.t ≤ 1 := by
  intro e he
  have he' : e = SEdge.mk ParentRef.tumor 0 (1/2) := by simpa [exGraph] using he
  subst he'
  norm_num

/-- Witness for C1 at a one-tumor, one-LNL graph with spread probability 1/2. -/
theorem claim_A_rows_sum_to_one_witness :
    ((0:ℕ) < 2 ^ exGraph.numLNLs ∧ ∀ e ∈ exGraph.edges, 0 ≤ e.t ∧ e.t ≤ 1)
    ∧ |(∑ j ∈ Finset.range (2 ^ exGraph.numLNLs), Amat exGraph 0 j) - 1| ≤ 1 / 1000000000 :=
  ⟨⟨by norm_num [exGraph], exGraph_edge_bounds⟩,
    claim_A_rows_sum_to_one exGraph 0 (by norm_num [exGraph]) exGraph_edge_bounds⟩

/-- C2: the transition matrix is upper-triangular in the componentwise state
order: whenever some component of state `j` is strictly below the matching
component of state `i`, the entry `A[i,j]` is zero. -/
theorem claim_A_upper_triangular (g : Graph) (i j : ℕ)
    (hi : i < 2 ^ g.numLNLs) (hj : j < 2 ^ g.numLNLs)
    (h : ∃ ℓ < g.numLNLs,
      (stateOf g.numLNLs j).getD ℓ 0 < (stateOf g.numLNLs i).getD ℓ 0) :
    Amat g i j = 0 := by
  unfold Amat
  rw [if_neg]
  unfold inMask
  rw [decide_eq_true_eq]
  push_neg
  obtain ⟨ℓ, hℓ, hlt⟩ := h
  exact ⟨ℓ, hℓ, by omega⟩

/-- Witness for C2: in the one-LNL graph the entry from the involved state
back to the healthy state is zero. -/
theorem claim_A_upper_triangular_witness :
    ((1:ℕ) < 2 ^ exGraph.numLNLs
      ∧ (0:ℕ) < 2 ^ exGraph.numLNLs
      ∧ ∃ ℓ < exGraph.numLNLs,
          (stateOf exGraph.numLNLs 0).getD ℓ 0 < (stateOf exGraph.numLNLs 1).getD ℓ 0)
    ∧ Amat exGraph 1 0 = 0 :=
  ⟨⟨by norm_num [exGraph], by norm_num [exGraph], by
      refine ⟨0, by norm_num [exGraph], ?_⟩
      simp [exGraph, stateOf, digit2, List.range_succ]⟩,
    claim_A_upper_triangular exGraph 1 0 (by norm_num [exGraph]) (by norm_num [exGraph]) (by
      refine ⟨0, by norm_num [exGraph], ?_⟩
      simp [exGraph, stateOf, digit2, List.range_succ])⟩

/-! ### Time evolution (`Unilateral._evolve`) -/

/-- Identity matrix, `numpy.linalg.matrix_power` with exponent 0. -/
def matId : ℕ → ℕ → ℚ := fun i j => if i = j then 1 else 0

/-- Product of two square matrices of size `n`. -/
def matMul (n : ℕ) (M N : ℕ → ℕ → ℚ) : ℕ → ℕ → ℚ :=
  fun i k => ∑ j ∈ Finset.range n, M i j * N j k

/-- `numpy.linalg.matrix_power` for a nonnegative exponent. -/
def matPow (n : ℕ) (M : ℕ → ℕ → ℚ) : ℕ → (ℕ → ℕ → ℚ)
  | 0 => matId
  | t + 1 => matMul n (matPow n M t) M

/-- Row vector times matrix, `v @ M` over size `n`. -/
def vecMat (n : ℕ) (v : ℕ → ℚ) (M : ℕ → ℕ → ℚ) : ℕ → ℚ :=
  fun j => ∑ i ∈ Finset.range n, v i * M i j

/-- The starting distribution of `_evolve`: mass 1 on index 0 (all healthy). -/
def startVec : ℕ → ℚ := fun i => if i = 0 then 1 else 0

/-- `Unilateral._evolve(t_first=t)` with `t_last=None`: returns
`start_state @ mat_pow(A, t)`. -/
def evolveAt (g : Graph) (t : ℕ) : ℕ → ℚ :=
  vecMat (2 ^ g.numLNLs) startVec (matPow (2 ^ g.numLNLs) (Amat g) t)

/-- A graph with exactly one tumor connected to exactly one LNL with spread
probability `p`. -/
def oneLNLGraph (p : ℚ) : Graph := Graph.mk 1 [SEdge.mk ParentRef.tumor 0 p]

theorem range_one_eq : List.range 1 = [0] := rfl

theorem stateOf_one_zero : stateOf 1 0 = [0] := rfl

theorem stateOf_one_one : stateOf 1 1 = [1] := rfl

theorem A_oneLNL_00 (p : ℚ) : Amat (oneLNLGraph p) 0 0 = 1 - p := by
  simp [Amat, oneLNLGraph, inMask, comp_transition_prob, node_trans_prob,
    incEdges, parentState, stateOf, digit2, range_one_eq, List.filter]

theorem A_oneLNL_01 (p : ℚ) : Amat (oneLNLGraph p) 0 1 = p := by
  simp [Amat, oneLNLGraph, inMask, comp_transition_prob, node_trans_prob,
    incEdges, parentState, stateOf, digit2, range_one_eq, List.filter]

theorem A_oneLNL_10 (p : ℚ) : Amat (oneLNLGraph p) 1 0 = 0 := by
  simp [Amat, oneLNLGraph, inMask, stateOf, digit2, range_one_eq]

theorem A_oneLNL_11 (p : ℚ) : Amat (oneLNLGraph p) 1 1 = 1 := by
  simp [Amat, oneLNLGraph, inMask, comp_transition_prob, node_trans_prob,
    incEdges, parentState, stateOf, digit2, range_one_eq, List.filter]

theorem matPow_oneLNL (p : ℚ) (t : ℕ) :
    matPow 2 (Amat (oneLNLGraph p)) t 0 0 = (1 - p) ^ t
      ∧ matPow 2 (Amat (oneLNLGraph p)) t 0 1 = 1 - (1 - p) ^ t := by
  induction t with
  | zero => simp [matPow, matId]
  | succ t ih =>
    obtain ⟨ih0, ih1⟩ := ih
    constructor
    · show matMul 2 (matPow 2 (Amat (oneLNLGraph p)) t) (Amat (oneLNLGraph p)) 0 0 = _
      unfold matMul
      rw [Finset.sum_range_succ, Finset.sum_range_succ, Finset.sum_range_zero,
        ih0, ih1, A_oneLNL_00, A_oneLNL_10]
      ring
    · show matMul 2 (matPow 2 (Amat (oneLNLGraph p)) t) (Amat (oneLNLGraph p)) 0 1 = _
      unfold matMul
      rw [Finset.sum_range_succ, Finset.sum_range_succ, Finset.sum_range_zero,
        ih0, ih1, A_oneLNL_01, A_oneLNL_11]
      ring

/-- C6: in a binary model with one tumor spreading to one LNL with
probability `p`, the hidden-state distribution computed by `_evolve` at
diagnose time `t` (starting from mass 1 on the all-healthy state) puts
probability `(1-p)^t` on the healthy state and `1 - (1-p)^t` on the involved
state, for every `t` and every `p` in `[0,1]`. -/
theorem claim_evolve_one_lnl (p : ℚ) (hp0 : 0 ≤ p) (hp1 : p ≤ 1) (t : ℕ) :
    evolveAt (oneLNLGraph p) t 0 = (1 - p) ^ t
      ∧ evolveAt (oneLNLGraph p) t 1 = 1 - (1 - p) ^ t := by
  obtain ⟨h0, h1⟩ := matPow_oneLNL p t
  constructor
  · show vecMat 2 startVec (matPow 2 (Amat (oneLNLGraph p)) t) 0 = _
    unfold vecMat
    rw [Finset.sum_range_succ, Finset.sum_range_succ, Finset.sum_range_zero, h0]
    simp [startVec]
  · show vecMat 2 startVec (matPow 2 (Amat (oneLNLGraph p)) t) 1 = _
    unfold vecMat
    rw [Finset.sum_range_succ, Finset.sum_range_succ, Finset.sum_range_zero, h1]
    simp [startVec]

/-- Witness for C6 at `p = 1/2`, `t = 2`: the distribution is `[1/4, 3/4]`. -/
theorem claim_evolve_one_lnl_witness :
    ((0:ℚ) ≤ 1/2 ∧ (1/2:ℚ) ≤ 1)
      ∧ evolveAt (oneLNLGraph (1/2)) 2 0 = 1/4
      ∧ evolveAt (oneLNLGraph (1/2)) 2 1 = 3/4 :=
  ⟨⟨by norm_num, by norm_num⟩,
    ((claim_evolve_one_lnl (1/2) (by norm_num) (by norm_num) 2).1).trans (by norm_num),
    ((claim_evolve_one_lnl (1/2) (by norm_num) (by norm_num) 2).2).trans (by norm_num)⟩


/-! ### Spread-probability setters (`base_probs`, `trans_probs`, `spread_probs`) -/

/-- One setter walk over the edge list: assign the values of `ps`, in order,
to the edges picked out by `pick` (the source iterates the filtered edge list
and writes `edge.t = new_probs[i]`, so running out of values is an
`IndexError`); the other edges and any leftover values are untouched. -/
def assignWhere (pick : SEdge → Bool) : List SEdge → List ℚ → Except String (List SEdge)
  | [], _ => Except.ok []
  | e :: es, ps =>
    if pick e then
      match ps with
      | [] => Except.error "IndexError: spread probability list too short"
      | p :: ptl =>
        match assignWhere pick es ptl with
        | Except.error msg => Except.error msg
        | Except.ok rest => Except.ok (SEdge.mk e.parent e.child p :: rest)
    else
      match assignWhere pick es ps with
      | Except.error msg => Except.error msg
      | Except.ok rest => Except.ok (e :: rest)

/-- `Unilateral.base_probs` getter: parameters of the tumor-start edges. -/
def base_probs (g : Graph) : List ℚ := (g.edges.filter SEdge.isBase).map SEdge.t

/-- `Unilateral.trans_probs` getter: parameters of the LNL-start edges. -/
def trans_probs (g : Graph) : List ℚ :=
  (g.edges.filter fun e => !SEdge.isBase e).map SEdge.t

/-- `Unilateral.spread_probs` getter: base block followed by trans block. -/
def spread_probs (g : Graph) : List ℚ := base_probs g ++ trans_probs g

/-- The `spread_probs` setter: the first `len(base_edges)` values go to the
tumor-start edges, the rest to the LNL-start edges. -/
def setSpreadProbs (g : Graph) (ps : List ℚ) : Except String Graph :=
  match assignWhere SEdge.isBase g.edges
      (ps.take (g.edges.filter SEdge.isBase).length) with
  | Except.error msg => Except.error msg
  | Except.ok es1 =>
    match assignWhere (fun e => !SEdge.isBase e) es1
        (ps.drop (g.edges.filter SEdge.isBase).length) with
    | Except.error msg => Except.error msg
    | Except.ok es2 => Except.ok (Graph.mk g.numLNLs es2)

theorem assignWhere_ok (pick other : SEdge → Bool)
    (hp : ∀ par c t p, pick (SEdge.mk par c p) = pick (SEdge.mk par c t))
    (ho : ∀ par c t p, other (SEdge.mk par c p) = other (SEdge.mk par c t)) :
    ∀ (es : List SEdge) (ps : List ℚ), es.countP pick ≤ ps.length →
    ∃ es', assignWhere pick es ps = Except.ok es'
      ∧ es'.countP other = es.countP other := by
  intro es
  induction es with
  | nil => exact fun ps _ => ⟨[], rfl, rfl⟩
  | cons e tl ih =>
    intro ps h
    by_cases hpe : pick e
    · cases ps with
      | nil =>
        exfalso
        rw [List.countP_cons, if_pos hpe] at h
        simp at h
      | cons p ptl =>
        have h' : tl.countP pick ≤ ptl.length := by
          rw [List.countP_cons, if_pos hpe] at h
          simp at h
          omega
        obtain ⟨es', he, hc⟩ := ih ptl h'
        refine ⟨SEdge.mk e.parent e.child p :: es', ?_, ?_⟩
        · show assignWhere pick (e :: tl) (p :: ptl)
            = Except.ok (SEdge.mk e.parent e.child p :: es')
          unfold assignWhere
          rw [if_pos hpe]
          show (match assignWhere pick tl ptl with
            | Except.error msg => Except.error msg
            | Except.ok rest => Except.ok (SEdge.mk e.parent e.child p :: rest))
            = Except.ok (SEdge.mk e.parent e.child p :: es')
          rw [he]
        · rw [List.countP_cons, List.countP_cons, hc, ho e.parent e.child e.t p]
    · have h' : tl.countP pick ≤ ps.length := by
        rw [List.countP_cons, if_neg hpe] at h
        simpa using h
      obtain ⟨es', he, hc⟩ := ih ps h'
      refine ⟨e :: es', ?_, ?_⟩
      · show assignWhere pick (e :: tl) ps = Except.ok (e :: es')
        unfold assignWhere
        rw [if_neg hpe, he]
      · rw [List.countP_cons, List.countP_cons, hc]

theorem setSpreadProbs_ok (g : Graph) (ps : List ℚ)
    (h : ps.length = (spread_probs g).length) :
    ∃ g', setSpreadProbs g ps = Except.ok g' := by
  have hsplit : (spread_probs g).length
      = (g.edges.filter SEdge.isBase).length
        + (g.edges.filter fun e => !SEdge.isBase e).length := by
    simp [spread_probs, base_probs, trans_probs]
  obtain ⟨es1, he1, hc1⟩ := assignWhere_ok SEdge.isBase (fun e => !SEdge.isBase e)
    (fun par c t p => by cases par <;> rfl)
    (fun par c t p => by cases par <;> rfl)
    g.edges (ps.take (g.edges.filter SEdge.isBase).length)
    (by
      rw [List.countP_eq_length_filter, List.length_take]
      omega)
  obtain ⟨es2, he2, _⟩ := assignWhere_ok (fun e => !SEdge.isBase e) SEdge.isBase
    (fun par c t p => by cases par <;> rfl)
    (fun par c t p => by cases par <;> rfl)
    es1 (ps.drop (g.edges.filter SEdge.isBase).length)
    (by
      rw [hc1, List.countP_eq_length_filter, List.length_drop]
      omega)
  refine ⟨Graph.mk g.numLNLs es2, ?_⟩
  unfold setSpreadProbs
  rw [he1]
  show (match assignWhere (fun e => !SEdge.isBase e) es1
      (ps.drop (g.edges.filter SEdge.isBase).length) with
    | Except.error msg => Except.error msg
    | Except.ok es2 => Except.ok (Graph.mk g.numLNLs es2))
    = Except.ok (Graph.mk g.numLNLs es2)
  rw [he2]

/-! ### Cache invalidation of the transition matrix (claim C4) -/

/-- `Unilateral` with its lazily cached transition matrix `_A` made explicit:
`cachedA = some A` while `_A` exists, `none` after a setter deleted it. -/
structure CachedUni where
  graph : Graph
  cachedA : Option (ℕ → ℕ → ℚ)

/-- The `A` property: return the cached `_A` when present, otherwise generate
the matrix from the current edge parameters (`_gen_A`). -/
def readA (c : CachedUni) : ℕ → ℕ → ℚ :=
  match c.cachedA with
  | some A => A
  | none => Amat c.graph

/-- The `base_probs` setter: write the tumor-edge parameters, then delete the
cached `_A` (`del self._A`). -/
def setBaseProbsCached (c : CachedUni) (ps : List ℚ) : Except String CachedUni :=
  match assignWhere SEdge.isBase c.graph.edges ps with
  | Except.error msg => Except.error msg
  | Except.ok es => Except.ok (CachedUni.mk (Graph.mk c.graph.numLNLs es) none)

/-- The `trans_probs` setter: write the LNL-edge parameters, then delete the
cached `_A`. -/
def setTransProbsCached (c : CachedUni) (ps : List ℚ) : Except String CachedUni :=
  match assignWhere (fun e => !SEdge.isBase e) c.graph.edges ps with
  | Except.error msg => Except.error msg
  | Except.ok es => Except.ok (CachedUni.mk (Graph.mk c.graph.numLNLs es) none)

/-- The `spread_probs` setter: the base block, then the trans block, each via
the corresponding setter (each deletes the cached `_A`). -/
def setSpreadProbsCached (c : CachedUni) (ps : List ℚ) : Except String CachedUni :=
  match setBaseProbsCached c (ps.take (c.graph.edges.filter SEdge.isBase).length) with
  | Except.error msg => Except.error msg
  | Except.ok c1 =>
    setTransProbsCached c1 (ps.drop (c.graph.edges.filter SEdge.isBase).length)

/-- C4: after a successful write through the `base_probs`, `trans_probs` or
`spread_probs` setter, the cached transition matrix is discarded, so the next
read of the `A` property is freshly generated (by `_gen_A`) from the newly
set edge parameters, regardless of what was cached before. -/
theorem claim_setters_invalidate_A (c : CachedUni) (ps : List ℚ) :
    (∀ c', setBaseProbsCached c ps = Except.ok c' →
      c'.cachedA = none ∧ readA c' = Amat c'.graph
        ∧ assignWhere SEdge.isBase c.graph.edges ps = Except.ok c'.graph.edges)
    ∧ (∀ c', setTransProbsCached c ps = Except.ok c' →
      c'.cachedA = none ∧ readA c' = Amat c'.graph
        ∧ assignWhere (fun e => !SEdge.isBase e) c.graph.edges ps
            = Except.ok c'.graph.edges)
    ∧ (∀ c', setSpreadProbsCached c ps = Except.ok c' →
      c'.cachedA = none ∧ readA c' = Amat c'.graph) := by
  refine ⟨?_, ?_, ?_⟩
  · intro c' h
    unfold setBaseProbsCached at h
    cases hassign : assignWhere SEdge.isBase c.graph.edges ps with
    | error e => rw [hassign] at h; cases h
    | ok es =>
      rw [hassign] at h
      cases h
      exact ⟨rfl, rfl, rfl⟩
  · intro c' h
    unfold setTransProbsCached at h
    cases hassign : assignWhere (fun e => !SEdge.isBase e) c.graph.edges ps with
    | error e => rw [hassign] at h; cases h
    | ok es =>
      rw [hassign] at h
      cases h
      exact ⟨rfl, rfl, rfl⟩
  · intro c' h
    unfold setSpreadProbsCached at h
    cases h1 : setBaseProbsCached c
        (ps.take ((c.graph.edges.filter SEdge.isBase).length)) with
    | error e => rw [h1] at h; cases h
    | ok c1 =>
      rw [h1] at h
      replace h : setTransProbsCached c1
          (ps.drop ((c.graph.edges.filter SEdge.isBase).length)) = Except.ok c' := h
      unfold setTransProbsCached at h
      cases h2 : assignWhere (fun e => !SEdge.isBase e) c1.graph.edges
          (ps.drop ((c.graph.edges.filter SEdge.isBase).length)) with
      | error e => rw [h2] at h; cases h
      | ok es =>
        rw [h2] at h
        cases h
        exact ⟨rfl, rfl⟩

/-- Witness for C4 on the one-LNL example graph with a stale cache: setting
`spread_probs` to `[1/3]` discards the cached all-zero matrix. -/
theorem claim_setters_invalidate_A_witness :
    ∀ c', setSpreadProbsCached (CachedUni.mk exGraph (some fun _ _ => 0)) [1/3]
        = Except.ok c' →
      c'.cachedA = none ∧ readA c' = Amat c'.graph :=
  (claim_setters_invalidate_A (CachedUni.mk exGraph (some fun _ _ => 0)) [1/3]).2.2

/-! ### Bilateral parameter synchronization (`BilateralSystem.set_theta`, claim C5) -/

/-- The four edge-parameter blocks of the old `BilateralSystem`
(`system.py`): spread probabilities of the tumor→LNL and LNL→LNL edges on
the ipsi- and contralateral sides, in graph order. -/
structure BilatParams where
  ipsiBase : List ℚ
  contraBase : List ℚ
  ipsiTrans : List ℚ
  contraTrans : List ℚ
deriving DecidableEq

/-- Read `n` consecutive entries of `theta` starting at `cursor`; running past
the end is an `IndexError`, as `theta[cursor]` would raise in the source. -/
def thetaSlice (θ : List ℚ) (cursor n : ℕ) : Except String (List ℚ) :=
  if cursor + n ≤ θ.length then Except.ok ((θ.drop cursor).take n)
  else Except.error "IndexError: theta too short"

/-- The base-edge half of `BilateralSystem.set_theta`: with `base_symmetric`
each value is written to the ipsi edge and to the matching contra edge (the
loop runs over the ipsi base edges, so surplus contra edges keep their old
values and a shorter contra list is an `IndexError`); without it the ipsi
block is filled first and the contra block next.  Returns the new blocks and
the cursor position. -/
def setThetaBase (b : BilatParams) (θ : List ℚ) (base_symmetric : Bool) :
    Except String (List ℚ × List ℚ × ℕ) :=
  if base_symmetric then
    match thetaSlice θ 0 b.ipsiBase.length with
    | Except.error msg => Except.error msg
    | Except.ok vals =>
      if b.contraBase.length < b.ipsiBase.length then
        Except.error "IndexError: contra base edges exhausted"
      else
        Except.ok (vals, vals ++ b.contraBase.drop b.ipsiBase.length, b.ipsiBase.length)
  else
    match thetaSlice θ 0 b.ipsiBase.length with
    | Except.error msg => Except.error msg
    | Except.ok iv =>
      match thetaSlice θ b.ipsiBase.length b.contraBase.length with
      | Except.error msg => Except.error msg
      | Except.ok cv => Except.ok (iv, cv, b.ipsiBase.length + b.contraBase.length)

/-- The trans-edge half of `BilateralSystem.set_theta`, continuing at
`cursor`; mirrors `setThetaBase`. -/
def setThetaTrans (b : BilatParams) (θ : List ℚ) (cursor : ℕ) (trans_symmetric : Bool) :
    Except String (List ℚ × List ℚ) :=
  if trans_symmetric then
    match thetaSlice θ cursor b.ipsiTrans.length with
    | Except.error msg => Except.error msg
    | Except.ok vals =>
      if b.contraTrans.length < b.ipsiTrans.length then
        Except.error "IndexError: contra trans edges exhausted"
      else
        Except.ok (vals, vals ++ b.contraTrans.drop b.ipsiTrans.length)
  else
    match thetaSlice θ cursor b.ipsiTrans.length with
    | Except.error msg => Except.error msg
    | Except.ok iv =>
      match thetaSlice θ (cursor + b.ipsiTrans.length) b.contraTrans.length with
      | Except.error msg => Except.error msg
      | Except.ok cv => Except.ok (iv, cv)

/-- `BilateralSystem.set_theta`: fill the base blocks, then the trans blocks,
walking a cursor through `theta`.  The final `_gen_A()` refresh only
recomputes a cached matrix and changes no edge parameter, so the returned
value is the full parameter state. -/
def set_theta (b : BilatParams) (θ : List ℚ) (base_symmetric trans_symmetric : Bool) :
    Except String BilatParams :=
  match setThetaBase b θ base_symmetric with
  | Except.error msg => Except.error msg
  | Except.ok (ib, cb, cursor) =>
    match setThetaTrans b θ cursor trans_symmetric with
    | Except.error msg => Except.error msg
    | Except.ok (it, ct) => Except.ok (BilatParams.mk ib cb it ct)

theorem setThetaBase_symmetric_eq (b : BilatParams) (θ : List ℚ)
    (hlen : b.contraBase.length = b.ipsiBase.length)
    (hθ : b.ipsiBase.length ≤ θ.length) :
    setThetaBase b θ true
      = Except.ok (θ.take b.ipsiBase.length, θ.take b.ipsiBase.length,
          b.ipsiBase.length) := by
  have h2 : ¬(b.contraBase.length < b.ipsiBase.length) := by omega
  have h3 : b.contraBase.drop b.ipsiBase.length = [] :=
    List.drop_eq_nil_of_le (by omega)
  simp [setThetaBase, thetaSlice, hθ, h2, h3]

theorem setThetaBase_symmetric_err (b : BilatParams) (θ : List ℚ)
    (hθ : ¬ b.ipsiBase.length ≤ θ.length) :
    setThetaBase b θ true = Except.error "IndexError: theta too short" := by
  simp [setThetaBase, thetaSlice, hθ]

/-- C5: with symmetric tumor spread (`base_symmetric = true`) a successful
`set_theta` writes each tumor-edge entry of `theta` to the ipsi edge and to
its mirror contra edge, so reading any contralateral tumor edge afterwards
yields exactly the value written to the matching ipsilateral tumor edge. -/
theorem claim_bilateral_tumor_sync (b : BilatParams) (θ : List ℚ) (ts : Bool)
    (hlen : b.contraBase.length = b.ipsiBase.length) (b' : BilatParams)
    (hok : set_theta b θ true ts = Except.ok b') :
    b'.contraBase = b'.ipsiBase
      ∧ ∀ i < b.ipsiBase.length, b'.ipsiBase.getD i 0 = θ.getD i 0 := by
  by_cases hθ : b.ipsiBase.length ≤ θ.length
  · unfold set_theta at hok
    rw [setThetaBase_symmetric_eq b θ hlen hθ] at hok
    replace hok : (match setThetaTrans b θ b.ipsiBase.length ts with
      | Except.error msg => Except.error msg
      | Except.ok (it, ct) =>
        Except.ok (BilatParams.mk (θ.take b.ipsiBase.length)
          (θ.take b.ipsiBase.length) it ct)) = Except.ok b' := hok
    cases htr : setThetaTrans b θ b.ipsiBase.length ts with
    | error msg => rw [htr] at hok; cases hok
    | ok tr =>
      rw [htr] at hok
      obtain ⟨it, ct⟩ := tr
      cases hok
      refine ⟨rfl, ?_⟩
      intro i hi
      show (θ.take b.ipsiBase.length).getD i 0 = θ.getD i 0
      rw [List.getD_eq_getElem?_getD, List.getElem?_take, if_pos hi,
        ← List.getD_eq_getElem?_getD]
  · exfalso
    unfold set_theta at hok
    rw [setThetaBase_symmetric_err b θ hθ] at hok
    cases hok

/-- Witness for C5: one tumor edge per side; writing `theta = [2/5]`
symmetrically makes the contra edge read `2/5`, the value written to the
ipsi edge. -/
theorem claim_bilateral_tumor_sync_witness :
    (BilatParams.mk [0] [0] [] []).contraBase.length
        = (BilatParams.mk [0] [0] [] []).ipsiBase.length
      ∧ set_theta (BilatParams.mk [0] [0] [] []) [2/5] true true
          = Except.ok (BilatParams.mk [2/5] [2/5] [] [])
      ∧ (BilatParams.mk [2/5] [2/5] [] []).contraBase
          = (BilatParams.mk [2/5] [2/5] [] []).ipsiBase
      ∧ ∀ i < (BilatParams.mk [0] [0] [] []).ipsiBase.length,
          (BilatParams.mk [2/5] [2/5] [] []).ipsiBase.getD i 0 = [(2:ℚ)/5].getD i 0 := by
  have hok : set_theta (BilatParams.mk [0] [0] [] []) [2/5] true true
      = Except.ok (BilatParams.mk [2/5] [2/5] [] []) := by
    simp [set_theta, setThetaBase, setThetaTrans, thetaSlice]
  refine ⟨rfl, hok, ?_⟩
  exact claim_bilateral_tumor_sync (BilatParams.mk [0] [0] [] []) [2/5] true rfl
    (BilatParams.mk [2/5] [2/5] [] []) hok

/-! ### The `state` setter (claim C10) -/

/-- The node states of a `Unilateral` system: the tumor node states, the LNL
node states, and the edges with their parameters (carried along for the frame
conditions of the `state` setter). -/
structure NodeStates where
  tumorStates : List ℤ
  lnlStates : List ℤ
  edges : List SEdge
deriving DecidableEq

/-- Python `int(x)`: truncation toward zero. -/
def intOf (q : ℚ) : ℤ := if 0 ≤ q then ⌊q⌋ else ⌈q⌉

/-- The `Unilateral.state` setter: `ValueError` when the length of the new
state differs from the number of LNLs (checked before any write), otherwise
write `int(newstate[i])` to each LNL node in order, touching neither the
tumor nodes nor the edges. -/
def setModelState (m : NodeStates) (newstate : List ℚ) : Except String NodeStates :=
  if newstate.length ≠ m.lnlStates.length then
    Except.error "ValueError: length of newstate must match number of LNLs"
  else Except.ok (NodeStates.mk m.tumorStates (newstate.map intOf) m.edges)

/-- C10: assigning `Unilateral.state` with a sequence of matching length sets
each LNL state to the truncated integer value of the matching entry and
leaves every tumor state and every edge parameter unchanged; a sequence of
any other length raises `ValueError` before any write, so no updated state is
produced. -/
theorem claim_state_setter (m : NodeStates) (newstate : List ℚ) :
    (newstate.length = m.lnlStates.length →
      setModelState m newstate
        = Except.ok (NodeStates.mk m.tumorStates (newstate.map intOf) m.edges))
    ∧ (newstate.length ≠ m.lnlStates.length →
      setModelState m newstate
        = Except.error "ValueError: length of newstate must match number of LNLs") := by
  constructor
  · intro h
    unfold setModelState
    rw [if_neg (by omega)]
  · intro h
    unfold setModelState
    rw [if_pos h]

/-- Witness for C10: a model with one tumor (state 1), one LNL and one edge;
writing `[5/2]` sets the LNL state to 2 and keeps everything else, while
writing `[]` raises `ValueError`. -/
theorem claim_state_setter_witness :
    setModelState (NodeStates.mk [1] [0] [SEdge.mk ParentRef.tumor 0 (1/2)]) [5/2]
        = Except.ok (NodeStates.mk [1] [2] [SEdge.mk ParentRef.tumor 0 (1/2)])
      ∧ setModelState (NodeStates.mk [1] [0] [SEdge.mk ParentRef.tumor 0 (1/2)]) []
        = Except.error "ValueError: length of newstate must match number of LNLs" :=
  ⟨((claim_state_setter (NodeStates.mk [1] [0] [SEdge.mk ParentRef.tumor 0 (1/2)])
      [5/2]).1 rfl).trans (by norm_num [intOf]),
    (claim_state_setter (NodeStates.mk [1] [0] [SEdge.mk ParentRef.tumor 0 (1/2)]) []).2
      (by norm_num)⟩

/-! ### Per-edge transition tensor (`helper.comp_transition_tensor`, claim C9) -/

/-- Row `b` of the `c`-dimensional identity matrix (`np.eye`). -/
def eyeRow (c b : ℕ) : List ℚ :=
  (List.range c).map fun j => if b = j then 1 else 0

/-- The `c`-dimensional identity matrix as a list of rows. -/
def eyeMat (c : ℕ) : List (List ℚ) :=
  (List.range c).map fun b => eyeRow c b

/-- `np.stack([np.eye(num_child)] * num_parent)`: the initial tensor. -/
def eyeTensor (p c : ℕ) : List (List (List ℚ)) :=
  (List.range p).map fun _ => eyeMat c

/-- `[x, y, *pad]` with `pad = [0.] * (num_child - 2)`. -/
def padRow (c : ℕ) (x y : ℚ) : List ℚ := [x, y] ++ List.replicate (c - 2) 0

/-- Overwrite the row at `(a, b)` of the tensor (`tensor[a, b, :] = row`). -/
def setRow (t : List (List (List ℚ))) (a b : ℕ) (row : List ℚ) :
    List (List (List ℚ)) :=
  t.set a ((t.getD a []).set b row)

/-- `helper.comp_transition_tensor`: start from `num_parent` stacked identity
matrices and overwrite single rows according to the edge kind.  The growth
branch assigns the fixed length-3 row `[0, 1-p, p]`, which numpy can only
broadcast into a row of width 3: with a binary child this raises
`ValueError`. -/
def comp_transition_tensor (num_parent num_child : ℕ)
    (is_tumor_spread is_growth : Bool) (spread_prob micro_mod : ℚ) :
    Except String (List (List (List ℚ))) :=
  if is_tumor_spread then
    Except.ok (setRow (eyeTensor num_parent num_child) 0 0
      (padRow num_child (1 - spread_prob) spread_prob))
  else if is_growth then
    if num_child = 3 then
      Except.ok (setRow (eyeTensor num_parent num_child) 1 1
        [0, 1 - spread_prob, spread_prob])
    else
      Except.error "ValueError: could not broadcast input array"
  else if num_parent = 3 then
    Except.ok (setRow (setRow (eyeTensor num_parent num_child) 1 0
        (padRow num_child (1 - spread_prob * micro_mod) (spread_prob * micro_mod)))
      2 0 (padRow num_child (1 - spread_prob) spread_prob))
  else
    Except.ok (setRow (eyeTensor num_parent num_child) 1 0
      (padRow num_child (1 - spread_prob) spread_prob))

/-- A probability distribution: entries in `[0, 1]` that sum to 1. -/
def IsDist (row : List ℚ) : Prop := (∀ x ∈ row, 0 ≤ x ∧ x ≤ 1) ∧ row.sum = 1

theorem sum_indicator_range (c b : ℕ) (hb : b < c) :
    ((List.range c).map fun j => if b = j then (1:ℚ) else 0).sum = 1 := by
  induction c with
  | zero => omega
  | succ c ih =>
    rw [List.range_succ, List.map_append, List.sum_append]
    by_cases hbc : b = c
    · subst hbc
      have hz : ((List.range b).map fun j => if b = j then (1:ℚ) else 0).sum = 0 := by
        apply List.sum_eq_zero
        intro x hx
        obtain ⟨j, hj, rfl⟩ := List.mem_map.1 hx
        rw [List.mem_range] at hj
        rw [if_neg (by omega)]
      simp [hz]
    · have hb' : b < c := by omega
      rw [ih hb']
      simp [hbc]

theorem isDist_eyeRow (c b : ℕ) (hb : b < c) : IsDist (eyeRow c b) := by
  constructor
  · intro x hx
    obtain ⟨j, _, rfl⟩ := List.mem_map.1 hx
    by_cases hbj : b = j
    · rw [if_pos hbj]; norm_num
    · rw [if_neg hbj]; norm_num
  · exact sum_indicator_range c b hb

theorem isDist_padRow (c : ℕ) (x : ℚ) (h0 : 0 ≤ x) (h1 : x ≤ 1) :
    IsDist (padRow c (1 - x) x) := by
  constructor
  · intro y hy
    rw [padRow, List.mem_append] at hy
    rcases hy with hy | hy
    · rw [List.mem_cons, List.mem_singleton] at hy
      rcases hy with rfl | rfl
      · constructor <;> linarith
      · constructor <;> linarith
    · rw [List.eq_of_mem_replicate hy]
      norm_num
  · rw [padRow, List.sum_append, List.sum_replicate]
    simp

theorem isDist_growthRow (x : ℚ) (h0 : 0 ≤ x) (h1 : x ≤ 1) :
    IsDist [0, 1 - x, x] := by
  constructor
  · intro y hy
    rw [List.mem_cons, List.mem_cons, List.mem_singleton] at hy
    rcases hy with rfl | rfl | rfl
    · norm_num
    · constructor <;> linarith
    · constructor <;> linarith
  · simp

theorem eyeTensor_length (p c : ℕ) : (eyeTensor p c).length = p := by simp [eyeTensor]

theorem mem_eyeTensor (p c : ℕ) (x : List (List ℚ)) (hx : x ∈ eyeTensor p c) :
    x = eyeMat c := by
  obtain ⟨_, _, rfl⟩ := List.mem_map.1 hx
  rfl

theorem eyeTensor_getD (p c a : ℕ) (ha : a < p) :
    (eyeTensor p c).getD a [] = eyeMat c := by
  unfold eyeTensor
  rw [getD_map_range _ p a [] ha]

theorem eyeMat_length (c : ℕ) : (eyeMat c).length = c := by simp [eyeMat]

theorem eyeMat_rows (c : ℕ) (y : List ℚ) (hy : y ∈ eyeMat c) : IsDist y := by
  obtain ⟨b, hb, rfl⟩ := List.mem_map.1 hy
  rw [List.mem_range] at hb
  exact isDist_eyeRow c b hb

/-- All slices of `setRow t a b row` (with `a` in range and `t` a stack of
identity matrices) are distributions, provided `row` is one. -/
theorem setRow_eyeTensor_good (p c a b : ℕ) (row : List ℚ) (ha : a < p)
    (hrow : IsDist row) :
    (setRow (eyeTensor p c) a b row).length = p
      ∧ ∀ x ∈ setRow (eyeTensor p c) a b row,
          x.length = c ∧ ∀ y ∈ x, IsDist y := by
  constructor
  · rw [setRow, List.length_set, eyeTensor_length]
  · intro x hx
    rw [setRow] at hx
    rcases List.mem_or_eq_of_mem_set hx with hmem | rfl
    · have hx' := mem_eyeTensor p c x hmem
      subst hx'
      exact ⟨eyeMat_length c, fun y hy => eyeMat_rows c y hy⟩
    · rw [eyeTensor_getD p c a ha]
      constructor
      · rw [List.length_set, eyeMat_length]
      · intro y hy
        rcases List.mem_or_eq_of_mem_set hy with hmem | rfl
        · exact eyeMat_rows c y hmem
        · exact hrow

/-- The same, for a second overwritten row. -/
theorem setRow_setRow_eyeTensor_good (p c a1 b1 a2 b2 : ℕ)
    (row1 row2 : List ℚ) (ha1 : a1 < p) (ha2 : a2 < p)
    (hrow1 : IsDist row1) (hrow2 : IsDist row2) :
    (setRow (setRow (eyeTensor p c) a1 b1 row1) a2 b2 row2).length = p
      ∧ ∀ x ∈ setRow (setRow (eyeTensor p c) a1 b1 row1) a2 b2 row2,
          x.length = c ∧ ∀ y ∈ x, IsDist y := by
  obtain ⟨hlen1, hall1⟩ := setRow_eyeTensor_good p c a1 b1 row1 ha1 hrow1
  constructor
  · rw [setRow, List.length_set, hlen1]
  · intro x hx
    rw [setRow] at hx
    rcases List.mem_or_eq_of_mem_set hx with hmem | rfl
    · exact hall1 x hmem
    · have h2 : a2 < (setRow (eyeTensor p c) a1 b1 row1).length := by
        rw [hlen1]; exact ha2
      have hin : (setRow (eyeTensor p c) a1 b1 row1).getD a2 []
          ∈ setRow (eyeTensor p c) a1 b1 row1 := by
        rw [List.getD_eq_getElem?_getD, List.getElem?_eq_getElem h2, Option.getD_some]
        exact List.getElem_mem h2
      obtain ⟨hxlen, hxrows⟩ := hall1 _ hin
      constructor
      · rw [List.length_set, hxlen]
      · intro y hy
        rcases List.mem_or_eq_of_mem_set hy with hmem | rfl
        · exact hxrows y hmem
        · exact hrow2

/-- C9 counterexample: `comp_transition_tensor(2, 2, False, True, p, m)` (a
growth edge with a binary child) raises `ValueError` instead of returning a
tensor of probability distributions, because the fixed length-3 growth row
cannot be broadcast into a width-2 row. -/
theorem claim_transition_tensor_counterexample :
    comp_transition_tensor 2 2 false true (1/2) (1/2)
      = Except.error "ValueError: could not broadcast input array" := rfl

/-- C9 (amended): for `num_parent` and `num_child` in `{2, 3}`, every flag
combination except a growth edge with a binary child (`is_growth` set,
`is_tumor_spread` unset, `num_child = 2`, where the function raises), and all
`spread_prob`, `micro_mod` in `[0, 1]`, the function returns a tensor of
shape `(num_parent, num_child, num_child)` in which every slice
`[parent_state, child_prev, :]` is a probability distribution. -/
theorem claim_transition_tensor_dist (np nc : ℕ) (its igr : Bool) (p μ : ℚ)
    (hnp : np = 2 ∨ np = 3) (hnc : nc = 2 ∨ nc = 3)
    (hp0 : 0 ≤ p) (hp1 : p ≤ 1) (hμ0 : 0 ≤ μ) (hμ1 : μ ≤ 1)
    (hexc : ¬(its = false ∧ igr = true ∧ nc = 2)) :
    ∃ T, comp_transition_tensor np nc its igr p μ = Except.ok T
      ∧ T.length = np
      ∧ ∀ x ∈ T, x.length = nc ∧ ∀ y ∈ x, IsDist y := by
  have hnp2 : 2 ≤ np := by rcases hnp with rfl | rfl <;> norm_num
  cases its with
  | true =>
    refine ⟨setRow (eyeTensor np nc) 0 0 (padRow nc (1 - p) p), ?_, ?_⟩
    · unfold comp_transition_tensor
      rw [if_pos rfl]
    · exact setRow_eyeTensor_good np nc 0 0 _ (by omega) (isDist_padRow nc p hp0 hp1)
  | false =>
    cases igr with
    | true =>
      have hnc3 : nc = 3 := by
        rcases hnc with rfl | rfl
        · exact absurd ⟨rfl, rfl, rfl⟩ hexc
        · rfl
      subst hnc3
      refine ⟨setRow (eyeTensor np 3) 1 1 [0, 1 - p, p], ?_, ?_⟩
      · unfold comp_transition_tensor
        rw [if_neg (by simp), if_pos rfl, if_pos rfl]
      · exact setRow_eyeTensor_good np 3 1 1 _ (by omega) (isDist_growthRow p hp0 hp1)
    | false =>
      by_cases hnp3 : np = 3
      · subst hnp3
        refine ⟨setRow (setRow (eyeTensor 3 nc) 1 0
            (padRow nc (1 - p * μ) (p * μ)))
            2 0 (padRow nc (1 - p) p), ?_, ?_⟩
        · unfold comp_transition_tensor
          rw [if_neg (by simp), if_neg (by simp), if_pos rfl]
        · exact setRow_setRow_eyeTensor_good 3 nc 1 0 2 0 _ _ (by norm_num) (by norm_num)
            (isDist_padRow nc (p * μ) (mul_nonneg hp0 hμ0)
              (mul_le_one₀ hp1 hμ0 hμ1))
            (isDist_padRow nc p hp0 hp1)
      · have hnp2' : np = 2 := by omega
        subst hnp2'
        refine ⟨setRow (eyeTensor 2 nc) 1 0 (padRow nc (1 - p) p), ?_, ?_⟩
        · unfold comp_transition_tensor
          rw [if_neg (by simp), if_neg (by simp), if_neg (by norm_num)]
        · exact setRow_eyeTensor_good 2 nc 1 0 _ (by norm_num)
            (isDist_padRow nc p hp0 hp1)

/-- Witness for C9 (amended) at the micro-modulated LNL→LNL case
`num_parent = 3`, `num_child = 2`, `p = 1/2`, `m = 1/3`. -/
theorem claim_transition_tensor_dist_witness :
    ((3:ℕ) = 2 ∨ (3:ℕ) = 3) ∧ ((2:ℕ) = 2 ∨ (2:ℕ) = 3)
      ∧ (0:ℚ) ≤ 1/2 ∧ (1/2:ℚ) ≤ 1 ∧ (0:ℚ) ≤ 1/3 ∧ (1/3:ℚ) ≤ 1
      ∧ ¬(false = false ∧ false = true ∧ (2:ℕ) = 2)
      ∧ ∃ T, comp_transition_tensor 3 2 false false (1/2) (1/3) = Except.ok T
          ∧ T.length = 3 ∧ ∀ x ∈ T, x.length = 2 ∧ ∀ y ∈ x, IsDist y :=
  ⟨Or.inr rfl, Or.inl rfl, by norm_num, by norm_num, by norm_num, by norm_num,
    by simp,
    claim_transition_tensor_dist 3 2 false false (1/2) (1/3) (Or.inr rfl) (Or.inl rfl)
      (by norm_num) (by norm_num) (by norm_num) (by norm_num) (by simp)⟩

/-! ### Observation list and data compression (`_gen_obs_list`, `_gen_C`, claim C7) -/

/-- Row `z` of `Unilateral._gen_obs_list`: position `j*M + k` (LNL `j`,
modality `k`) holds binary digit `k*L + j` of `z` written with `M*L` digits
(`obs_list[i, (j*n_obs)+k] = int(tmp[k*len(lnls)+j])`). -/
def obsListRow (L M z : ℕ) : List ℕ :=
  (List.range (M * L)).map fun pos => digit2 (M * L) z (pos % M * L + pos / M)

/-- `np.all(np.equal(obs, row, where=~isnan(row), out=ones))`: positions with
a missing entry always match, the others must agree with the complete
observation. -/
def matchesRow : List (Option Bool) → List ℕ → Bool
  | [], _ => true
  | _, [] => true
  | r :: rtl, o :: otl =>
    (match r with
     | none => true
     | some b => (if b then 1 else 0) == o) && matchesRow rtl otl

/-- The compatibility column of one patient row (one column of `tmp_C` in
`_gen_C`): one 0/1 entry per complete observation. -/
def compatCol (L M : ℕ) (row : List (Option Bool)) : List Bool :=
  (List.range (2 ^ (M * L))).map fun z => matchesRow row (obsListRow L M z)

/-- `Unilateral._gen_C` for one T-stage with `delete_ones = True` and
`aggregate_duplicates = True`: build the compatibility column of every
patient of the stage, drop the all-ones columns
(`sum_over_C != len(obs_list)`), and collapse duplicate columns with
multiplicities (`np.unique(..., axis=1, return_counts=True)`; `np.unique`
sorts the distinct columns, here they are kept in first-occurrence order,
which none of the claimed properties depends on). -/
def gen_C (L M : ℕ) (table : List (List (Option Bool))) :
    List (List Bool) × List ℕ :=
  let kept := (table.map (compatCol L M)).filter
    (fun col => col.count true ≠ 2 ^ (M * L))
  (kept.dedup, kept.dedup.map fun col => kept.count col)

theorem obsListRow_getD (L M z pos : ℕ) (h : pos < M * L) :
    (obsListRow L M z).getD pos 0 = digit2 (M * L) z (pos % M * L + pos / M) := by
  unfold obsListRow
  exact getD_map_range _ _ _ _ h

theorem obs_digit_index_lt (L M pos : ℕ) (h : pos < M * L) :
    pos % M * L + pos / M < M * L := by
  have hM : 0 < M := by
    rcases Nat.eq_zero_or_pos M with rfl | hM
    · simp at h
    · exact hM
  have h1 : pos % M < M := Nat.mod_lt _ hM
  have h2 : pos / M < L := by
    rw [Nat.div_lt_iff_lt_mul hM, Nat.mul_comm L M]
    omega
  have hmul : pos % M * L + L ≤ M * L := by
    have hstep : (pos % M + 1) * L ≤ M * L := Nat.mul_le_mul_right L (by omega)
    calc pos % M * L + L = (pos % M + 1) * L := by ring
      _ ≤ M * L := hstep
  omega

theorem obsListRow_coverage (L M pos v : ℕ) (hpos : pos < M * L) (hv : v < 2) :
    ∃ z < 2 ^ (M * L), (obsListRow L M z).getD pos 0 = v := by
  obtain ⟨q, hq, hqlt⟩ : ∃ q, q = pos % M * L + pos / M ∧ q < M * L :=
    ⟨_, rfl, obs_digit_index_lt L M pos hpos⟩
  refine ⟨v * 2 ^ (M * L - 1 - q), ?_, ?_⟩
  · have hle : M * L - 1 - q ≤ M * L - 1 := Nat.sub_le _ _
    have hpow : (2:ℕ) ^ (M * L - 1 - q) ≤ 2 ^ (M * L - 1) :=
      Nat.pow_le_pow_right (by norm_num) hle
    have hbig : (2:ℕ) ^ (M * L - 1) < 2 ^ (M * L) :=
      Nat.pow_lt_pow_right (by norm_num) (by omega)
    calc v * 2 ^ (M * L - 1 - q) ≤ 1 * 2 ^ (M * L - 1 - q) :=
        Nat.mul_le_mul_right _ (by omega)
      _ = 2 ^ (M * L - 1 - q) := one_mul _
      _ ≤ 2 ^ (M * L - 1) := hpow
      _ < 2 ^ (M * L) := hbig
  · rw [obsListRow_getD L M _ pos hpos, ← hq]
    unfold digit2
    rw [Nat.mul_div_cancel _ (Nat.pos_pow_of_pos _ (by norm_num))]
    exact Nat.mod_eq_of_lt hv

theorem matchesRow_all_none : ∀ (row : List (Option Bool)) (obs : List ℕ),
    (∀ r ∈ row, r = none) → matchesRow row obs = true := by
  intro row
  induction row with
  | nil => intro obs _; cases obs <;> rfl
  | cons r rtl ih =>
    intro obs h
    cases obs with
    | nil => rfl
    | cons o otl =>
      have hr : r = none := h r (by simp)
      subst hr
      show (true && matchesRow rtl otl) = true
      rw [Bool.true_and]
      exact ih otl fun x hx => h x (by simp [hx])

theorem matchesRow_eq_false : ∀ (row : List (Option Bool)) (obs : List ℕ) (pos : ℕ)
    (b : Bool), row.getD pos none = some b →
    pos < obs.length →
    obs.getD pos 0 ≠ (if b then 1 else 0) →
    matchesRow row obs = false := by
  intro row
  induction row with
  | nil =>
    intro obs pos b hr _ _
    rw [List.getD] at hr
    simp at hr
  | cons r rtl ih =>
    intro obs pos b hr hlen ho
    cases obs with
    | nil => simp at hlen
    | cons o otl =>
      cases pos with
      | zero =>
        rw [List.getD_cons_zero] at hr
        subst hr
        rw [List.getD_cons_zero] at ho
        show (((if b then 1 else 0) == o) && matchesRow rtl otl) = false
        have : ((if b then 1 else 0) == o) = false := by
          rw [beq_eq_false_iff_ne]
          omega
        rw [this, Bool.false_and]
      | succ pos =>
        rw [List.getD_cons_succ] at hr
        rw [List.getD_cons_succ] at ho
        rw [List.length_cons] at hlen
        show ((match r with
          | none => true
          | some b => (if b then 1 else 0) == o) && matchesRow rtl otl) = false
        rw [ih otl pos b hr (by omega) ho, Bool.and_false]

theorem row_has_some (row : List (Option Bool)) (h : ¬ ∀ r ∈ row, r = none) :
    ∃ pos < row.length, ∃ b, row.getD pos none = some b := by
  push_neg at h
  obtain ⟨r, hmem, hne⟩ := h
  obtain ⟨b, rfl⟩ : ∃ b, r = some b := by
    cases r with
    | none => exact absurd rfl hne
    | some b => exact ⟨b, rfl⟩
  obtain ⟨i, hi, hget⟩ := List.mem_iff_getElem.1 hmem
  refine ⟨i, hi, b, ?_⟩
  rw [List.getD_eq_getElem?_getD, List.getElem?_eq_getElem hi, Option.getD_some, hget]

theorem compatCol_length (L M : ℕ) (row : List (Option Bool)) :
    (compatCol L M row).length = 2 ^ (M * L) := by
  simp [compatCol]

theorem compatCol_count_true_iff (L M : ℕ) (row : List (Option Bool))
    (hlen : row.length = M * L) :
    (compatCol L M row).count true = 2 ^ (M * L) ↔ ∀ r ∈ row, r = none := by
  constructor
  · intro hcount
    by_contra hnot
    obtain ⟨pos, hpos, b, hget⟩ := row_has_some row hnot
    rw [hlen] at hpos
    obtain ⟨z, hz, hobs⟩ := obsListRow_coverage L M pos (if b then 0 else 1) hpos
      (by cases b <;> norm_num)
    have hall : ∀ c ∈ compatCol L M row, true = c := by
      rw [← List.count_eq_length]
      rw [hcount, compatCol_length]
    have hmem : matchesRow row (obsListRow L M z) ∈ compatCol L M row := by
      unfold compatCol
      exact List.mem_map.2 ⟨z, List.mem_range.2 hz, rfl⟩
    have htrue := (hall _ hmem).symm
    have hfalse : matchesRow row (obsListRow L M z) = false := by
      apply matchesRow_eq_false row _ pos b hget
      · simp [obsListRow]
        omega
      · rw [hobs]
        cases b <;> norm_num
    rw [htrue] at hfalse
    cases hfalse
  · intro hnone
    have hcol : compatCol L M row = List.replicate (2 ^ (M * L)) true := by
      unfold compatCol
      rw [List.eq_replicate_iff]
      refine ⟨by simp, ?_⟩
      intro c hc
      obtain ⟨z, _, rfl⟩ := List.mem_map.1 hc
      exact matchesRow_all_none row _ hnone
    rw [hcol]
    simp

theorem sum_map_count_dedup_len (l : List (List Bool)) :
    (l.dedup.map fun col => l.count col).sum = l.length := by
  have hcongr : (l.dedup.map fun col => l.count col)
      = l.dedup.map fun col => @List.count (List Bool) instBEqOfDecidableEq col l := by
    apply List.map_congr_left
    intro col _
    show List.countP (fun x => x == col) l = List.countP (fun x => decide (x = col)) l
    apply List.countP_congr
    intro x _
    rw [Bool.eq_iff_iff]
    simp
  rw [hcongr]
  exact List.sum_map_count_dedup_eq_length l

/-- C7: after `_gen_C` with `delete_ones = True` and
`aggregate_duplicates = True`, the stored `C` matrix has pairwise distinct
0/1 columns, none of which is the all-ones column; each `f[k]` counts the
patients of the stage whose compatibility vector equals column `k`; and the
entries of `f` sum to the number of patients whose diagnosis has at least
one non-missing entry. -/
theorem claim_gen_C (L M : ℕ) (table : List (List (Option Bool)))
    (hrows : ∀ row ∈ table, row.length = M * L) :
    (gen_C L M table).1.Nodup
      ∧ List.replicate (2 ^ (M * L)) true ∉ (gen_C L M table).1
      ∧ (∀ k, k < (gen_C L M table).1.length →
          (gen_C L M table).2.getD k 0
            = (table.map (compatCol L M)).count ((gen_C L M table).1.getD k []))
      ∧ (gen_C L M table).2.sum
          = (table.filter fun row => row.any fun r => r.isSome).length := by
  have hkept : (gen_C L M table).1
      = ((table.map (compatCol L M)).filter
          (fun col => col.count true ≠ 2 ^ (M * L))).dedup := rfl
  have hf : (gen_C L M table).2
      = ((table.map (compatCol L M)).filter
          (fun col => col.count true ≠ 2 ^ (M * L))).dedup.map
        fun col => ((table.map (compatCol L M)).filter
          (fun col => col.count true ≠ 2 ^ (M * L))).count col := rfl
  refine ⟨?_, ?_, ?_, ?_⟩
  · rw [hkept]
    exact List.nodup_dedup _
  · rw [hkept]
    intro hmem
    rw [List.mem_dedup, List.mem_filter] at hmem
    obtain ⟨_, hpred⟩ := hmem
    rw [decide_eq_true_eq] at hpred
    exact hpred (by simp)
  · intro k hk
    rw [hkept] at hk
    rw [hkept, hf]
    set kept := (table.map (compatCol L M)).filter
      (fun col => col.count true ≠ 2 ^ (M * L)) with hkeptdef
    have hgetmap : (kept.dedup.map fun col => kept.count col).getD k 0
        = kept.count (kept.dedup.getD k []) := by
      rw [List.getD_eq_getElem?_getD, List.getElem?_map,
        List.getElem?_eq_getElem hk, Option.map_some', Option.getD_some,
        List.getD_eq_getElem?_getD, List.getElem?_eq_getElem hk, Option.getD_some]
    rw [hgetmap]
    have hmem : kept.dedup.getD k [] ∈ kept := by
      rw [← List.mem_dedup]
      rw [List.getD_eq_getElem?_getD, List.getElem?_eq_getElem hk, Option.getD_some]
      exact List.getElem_mem hk
    rw [hkeptdef] at hmem
    rw [List.mem_filter] at hmem
    exact List.count_filter hmem.2
  · rw [hf, sum_map_count_dedup_len, List.filter_map, List.length_map]
    congr 1
    apply List.filter_congr
    intro row hrow
    simp only [Function.comp_apply]
    rw [Bool.eq_iff_iff, decide_eq_true_eq]
    rw [Ne, compatCol_count_true_iff L M row (hrows row hrow), List.any_eq_true]
    constructor
    · intro hnot
      by_contra hcon
      push_neg at hcon
      apply hnot
      intro r hmem
      have hr := hcon r hmem
      cases r with
      | none => rfl
      | some b => exact absurd rfl hr
    · rintro ⟨r, hmem, hsome⟩ hall
      rw [hall r hmem] at hsome
      cases hsome

/-- Witness for C7: one LNL, one modality, two patients (one observed
involved, one fully missing): `C` keeps the single column `[false, true]`
with multiplicity 1 and drops the all-missing patient. -/
theorem claim_gen_C_witness :
    (∀ row ∈ [[some true], ([] : List (Option Bool)).concat none], row.length = 1 * 1)
      ∧ (gen_C 1 1 [[some true], [none]]).1.Nodup
      ∧ List.replicate (2 ^ (1 * 1)) true ∉ (gen_C 1 1 [[some true], [none]]).1
      ∧ (∀ k, k < (gen_C 1 1 [[some true], [none]]).1.length →
          (gen_C 1 1 [[some true], [none]]).2.getD k 0
            = ([[some true], [none]].map (compatCol 1 1)).count
                ((gen_C 1 1 [[some true], [none]]).1.getD k []))
      ∧ (gen_C 1 1 [[some true], [none]]).2.sum
          = ([[some true], [none]].filter fun row => row.any fun r => r.isSome).length :=
  ⟨by decide,
    claim_gen_C 1 1 [[some true], [none]] (by decide)⟩

/-! ### Modalities, the observation matrix `B` and `Unilateral.risk` (claim C8) -/

/-- A diagnostic modality: its name and the specificity/sensitivity pair from
which the `modalities` setter builds the 2x2 confusion table
`[[sp, 1-sn], [1-sp, sn]]` (row = observation, column = hidden state). -/
structure Modality where
  name : String
  sp : ℚ
  sn : ℚ
deriving DecidableEq

/-- Modelled from the spec: `Node.obs_prob` of the missing `node.py` reads the
confusion-table entry for the node's state and the given observation, i.e.
`P(obs | state)` with specificity in the healthy column and sensitivity in the
involved column (spec section 4.5, binary collapse of the confusion matrix). -/
def obs_prob (m : Modality) (state obs : ℕ) : ℚ :=
  if state = 0 then (if obs = 0 then m.sp else 1 - m.sp)
  else (if obs = 0 then 1 - m.sn else m.sn)

/-- `Unilateral._gen_B` entry `B[x, z]`: `comp_observation_prob` of the
diagnoses dictionary that hands modality `k` the slice
`obs[n_lnl*k : n_lnl*(k+1)]` of complete observation `z`; the product over
every modality and every LNL of the confusion entry for the LNL's state and
the matching observation bit. -/
def Bmat (L : ℕ) (mods : List Modality) (x z : ℕ) : ℚ :=
  ((List.range mods.length).map fun k =>
    ((List.range L).map fun ℓ =>
      obs_prob (mods.getD k (Modality.mk "" 0 0))
        ((stateOf L x).getD ℓ 0)
        ((obsListRow L mods.length z).getD (L * k + ℓ) 0)).prod).prod

/-- The concatenated diagnose vector built at the top of `Unilateral.risk`:
for every registered modality in order, the diagnosis provided for it, or a
block of `len(self.lnls)` missing entries. -/
def riskObs (L : ℕ) (mods : List Modality)
    (diagnoses : List (String × List (Option Bool))) : List (Option Bool) :=
  (mods.map fun m =>
    match diagnoses.lookup m.name with
    | some d => d
    | none => List.replicate L (none : Option Bool)).flatten

/-- The marginalization vector `cZ` of `Unilateral.risk`: entry `z` records
whether complete observation `z` agrees with the (possibly partial) diagnose
vector on all of its non-missing entries. -/
def encodingVec (L M : ℕ) (obs : List (Option Bool)) : List Bool :=
  (List.range (2 ^ (M * L))).map fun z => matchesRow obs (obsListRow L M z)

/-- The Bayesian-network state distribution of `risk` in mode `"BN"`: the
product over the LNLs of `node.bn_prob()`, the local probability of the LNL's
own state given its parents (`node.py` is not in the repository; the local
probability is the one of spec section 4.7, which coincides with
`node_trans_prob` evaluated at the node's own state). -/
def bnStateDist (g : Graph) (x : ℕ) : ℚ :=
  ((List.range g.numLNLs).map fun ℓ =>
    node_trans_prob (stateOf g.numLNLs x) (incEdges g ℓ)
      ((stateOf g.numLNLs x).getD ℓ 0)).prod

/-- The `mode` string accepted by `log_likelihood` and `risk`. -/
inductive Mode where
  | HMM : Mode
  | BN : Mode
deriving DecidableEq

/-- `_evolve(t_first=t, t_last=None)` for a possibly negative `t`:
`numpy.linalg.matrix_power` with a negative exponent first inverts the
matrix, which is not modelled here; no claim depends on that branch, so it is
left as an error outcome. -/
def evolveZ (g : Graph) (t : ℤ) : Except String (ℕ → ℚ) :=
  if 0 ≤ t then Except.ok (evolveAt g t.toNat)
  else Except.error "negative matrix power (matrix inverse not modelled)"

/-- The prior `pX` over hidden states computed at the top of
`Unilateral.risk`: evolution to a fixed diagnose time, marginalization over a
diagnose-time distribution (for an empty distribution,
`_evolve(t_last=len(time_dist)-1)` raises), or the Bayesian-network
distribution. -/
def riskPrior (g : Graph) (diag_time : Option ℤ) (time_dist : Option (List ℚ))
    (mode : Mode) : Except String (ℕ → ℚ) :=
  match mode with
  | Mode.HMM =>
    match diag_time with
    | some t => evolveZ g t
    | none =>
      match time_dist with
      | some d =>
        if d.length = 0
        then Except.error "ValueError: Starting time must be smaller than ending time."
        else Except.ok fun x =>
          ((List.range d.length).map fun t => d.getD t 0 * evolveAt g t x).sum
      | none =>
        Except.error "ValueError: Either diagnose time or distribution to marginalize over it must be given."
  | Mode.BN => Except.ok (bnStateDist g)

/-- The denominator `cZ @ pZ` of `Unilateral.risk`, with `pZ = pX @ B`. -/
def riskDenom (L : ℕ) (mods : List Modality) (pX : ℕ → ℚ)
    (obs : List (Option Bool)) : ℚ :=
  ∑ z ∈ Finset.range (2 ^ (mods.length * L)),
    (if (encodingVec L mods.length obs).getD z false then (1:ℚ) else 0)
      * ∑ x ∈ Finset.range (2 ^ L), pX x * Bmat L mods x z

/-- Entry `x` of the numerator `cZ @ pZX` of `Unilateral.risk`, with
`pZX = B.T * pX`. -/
def riskNum (L : ℕ) (mods : List Modality) (pX : ℕ → ℚ)
    (obs : List (Option Bool)) (x : ℕ) : ℚ :=
  ∑ z ∈ Finset.range (2 ^ (mods.length * L)),
    (if (encodingVec L mods.length obs).getD z false then (1:ℚ) else 0)
      * (Bmat L mods x z * pX x)

/-- The two possible results of `Unilateral.risk`: a vector over all hidden
states (`inv = None`) or a single marginalized probability. -/
inductive RiskResult where
  | vec (v : List ℚ) : RiskResult
  | single (r : ℚ) : RiskResult
deriving DecidableEq

/-- The model state `Unilateral.risk` reads: the graph and the registered
modalities in insertion order. -/
structure UniModel where
  graph : Graph
  modalities : List Modality
deriving DecidableEq

/-- `Unilateral.risk`: optionally write new spread parameters, build the
concatenated diagnose vector and the prior over hidden states, and return
`cZ @ pZX / (cZ @ pZ)` over all hidden states (`inv = None`) or that vector
marginalized over the hidden states matching the involvement of interest. -/
def risk (m : UniModel) (sps : Option (List ℚ)) (inv : Option (List (Option Bool)))
    (diagnoses : List (String × List (Option Bool))) (diag_time : Option ℤ)
    (time_dist : Option (List ℚ)) (mode : Mode) : Except String RiskResult :=
  match (match sps with
         | none => Except.ok m.graph
         | some ps => setSpreadProbs m.graph ps) with
  | Except.error msg => Except.error msg
  | Except.ok g =>
    match riskPrior g diag_time time_dist mode with
    | Except.error msg => Except.error msg
    | Except.ok pX =>
      match inv with
      | none =>
        Except.ok (RiskResult.vec ((List.range (2 ^ g.numLNLs)).map fun x =>
          riskNum g.numLNLs m.modalities pX (riskObs g.numLNLs m.modalities diagnoses) x
            / riskDenom g.numLNLs m.modalities pX (riskObs g.numLNLs m.modalities diagnoses)))
      | some pattern =>
        Except.ok (RiskResult.single
          (((List.range (2 ^ g.numLNLs)).map fun x =>
            (if matchesRow pattern (stateOf g.numLNLs x) then (1:ℚ) else 0)
              * (riskNum g.numLNLs m.modalities pX (riskObs g.numLNLs m.modalities diagnoses) x
                / riskDenom g.numLNLs m.modalities pX (riskObs g.numLNLs m.modalities diagnoses))).sum))

theorem state_list_nodup (L : ℕ) : (state_list L).Nodup := by
  induction L with
  | zero => rw [state_list_zero]; exact List.nodup_singleton _
  | succ L ih =>
    rw [state_list_succ L]
    refine List.Nodup.append (ih.map ?_) (ih.map ?_) ?_
    · intro a b h; injection h
    · intro a b h; injection h
    · intro a ha hb
      obtain ⟨s, _, rfl⟩ := List.mem_map.1 ha
      obtain ⟨u, _, h⟩ := List.mem_map.1 hb
      injection h with h0 _
      exact absurd h0 (by decide)

theorem mem_state_list_of (L : ℕ) (s : List ℕ) (hlen : s.length = L)
    (hbin : ∀ v ∈ s, v < 2) : s ∈ state_list L := by
  induction L generalizing s with
  | zero =>
    rw [List.length_eq_zero] at hlen
    rw [state_list_zero, hlen]
    exact List.mem_singleton.2 rfl
  | succ L ih =>
    rw [state_list_succ L]
    cases s with
    | nil => simp at hlen
    | cons a u =>
      have hu : u ∈ state_list L :=
        ih u (by simpa using hlen) (fun v hv => hbin v (by simp [hv]))
      have ha : a < 2 := hbin a (by simp)
      rw [List.mem_append]
      interval_cases a
      · exact Or.inl (List.mem_map.2 ⟨u, hu, rfl⟩)
      · exact Or.inr (List.mem_map.2 ⟨u, hu, rfl⟩)

theorem obsListRow_one (L z : ℕ) : obsListRow L 1 z = stateOf L z := by
  unfold obsListRow stateOf
  rw [one_mul]
  apply List.map_congr_left
  intro pos _
  have h : pos % 1 * L + pos / 1 = pos := by simp [Nat.mod_one]
  rw [h]

theorem matchesRow_complete :
    ∀ (diag : List (Option Bool)) (s : List ℕ),
    (∀ o ∈ diag, o.isSome) → s.length = diag.length →
    (matchesRow diag s = true
      ↔ s = diag.map fun o => if o.getD false then 1 else 0)
  | [], s, _, hlen => by
    have hs : s = [] := List.length_eq_zero.1 (by simpa using hlen)
    subst hs
    simp [matchesRow]
  | r :: rtl, s, hsome, hlen => by
    cases s with
    | nil => simp at hlen
    | cons v stl =>
      obtain ⟨b, hb⟩ := Option.isSome_iff_exists.1 (hsome r (by simp))
      subst hb
      have ih := matchesRow_complete rtl stl
        (fun o ho => hsome o (by simp [ho])) (by simpa using hlen)
      show ((if b then (1:ℕ) else 0) == v && matchesRow rtl stl) = true ↔ _
      rw [Bool.and_eq_true, beq_iff_eq, ih, List.map_cons, List.cons_eq_cons]
      constructor
      · rintro ⟨h1, h2⟩; exact ⟨h1.symm, by simpa using h2⟩
      · rintro ⟨h1, h2⟩; exact ⟨h1.symm, by simpa using h2⟩

theorem count_state_eq_one (L : ℕ) (s : List ℕ) (hlen : s.length = L)
    (hbin : ∀ v ∈ s, v < 2) :
    List.countP (fun z => stateOf L z == s) (List.range (2 ^ L)) = 1 := by
  have h1 : List.countP (fun z => stateOf L z == s) (List.range (2 ^ L))
      = List.countP (fun u => u == s) (state_list L) := by
    unfold state_list
    rw [List.countP_map]
    rfl
  have h2 : List.countP (fun u => u == s) (state_list L)
      = List.countP (fun u => decide (u = s)) (state_list L) := by
    apply List.countP_congr
    intro u _
    simp
  rw [h1, h2]
  exact List.count_eq_one_of_mem (state_list_nodup L) (mem_state_list_of L s hlen hbin)

theorem encodingVec_count_one (L : ℕ) (diag : List (Option Bool))
    (hlen : diag.length = L) (hcomplete : ∀ o ∈ diag, o.isSome) :
    (encodingVec L 1 diag).count true = 1 := by
  have h1 : (encodingVec L 1 diag).count true
      = List.countP (fun z => matchesRow diag (obsListRow L 1 z) == true)
          (List.range (2 ^ (1 * L))) := by
    unfold encodingVec
    rw [List.count_eq_countP, List.countP_map]
    rfl
  rw [h1, one_mul]
  have h2 : List.countP (fun z => matchesRow diag (obsListRow L 1 z) == true)
      (List.range (2 ^ L))
      = List.countP
          (fun z => stateOf L z == diag.map fun o => if o.getD false then 1 else 0)
          (List.range (2 ^ L)) := by
    apply List.countP_congr
    intro z _
    rw [obsListRow_one]
    simp only [beq_true, beq_iff_eq]
    exact matchesRow_complete diag (stateOf L z) hcomplete
      (by rw [stateOf_length, hlen])
  rw [h2]
  exact count_state_eq_one L _ (by simp [hlen]) (by
    intro v hv
    obtain ⟨o, _, rfl⟩ := List.mem_map.1 hv
    by_cases hb : o.getD false <;> simp [hb])

theorem riskNum_sum_eq_denom (L : ℕ) (mods : List Modality) (pX : ℕ → ℚ)
    (obs : List (Option Bool)) :
    (∑ x ∈ Finset.range (2 ^ L), riskNum L mods pX obs x)
      = riskDenom L mods pX obs := by
  unfold riskNum riskDenom
  rw [Finset.sum_comm]
  refine Finset.sum_congr rfl fun z _ => ?_
  rw [Finset.mul_sum]
  refine Finset.sum_congr rfl fun x _ => ?_
  ring

theorem riskObs_single (L : ℕ) (name : String) (sp sn : ℚ)
    (diag : List (Option Bool)) :
    riskObs L [Modality.mk name sp sn] [(name, diag)] = diag := by
  simp [riskObs, List.lookup]

theorem risk_eval (m : UniModel) (diagnoses : List (String × List (Option Bool)))
    (t : ℕ) :
    risk m none none diagnoses (some (t : ℤ)) none Mode.HMM
      = Except.ok (RiskResult.vec ((List.range (2 ^ m.graph.numLNLs)).map fun x =>
          riskNum m.graph.numLNLs m.modalities (evolveAt m.graph t)
              (riskObs m.graph.numLNLs m.modalities diagnoses) x
            / riskDenom m.graph.numLNLs m.modalities (evolveAt m.graph t)
              (riskObs m.graph.numLNLs m.modalities diagnoses))) := by
  have hprior : riskPrior m.graph (some (t : ℤ)) none Mode.HMM
      = Except.ok (evolveAt m.graph t) := by
    show evolveZ m.graph (t : ℤ) = Except.ok (evolveAt m.graph t)
    unfold evolveZ
    rw [if_pos (Int.natCast_nonneg t), Int.toNat_natCast]
  have hstep : risk m none none diagnoses (some (t : ℤ)) none Mode.HMM
      = (match riskPrior m.graph (some (t : ℤ)) none Mode.HMM with
         | Except.error msg => Except.error msg
         | Except.ok pX =>
           Except.ok (RiskResult.vec ((List.range (2 ^ m.graph.numLNLs)).map fun x =>
             riskNum m.graph.numLNLs m.modalities pX
                 (riskObs m.graph.numLNLs m.modalities diagnoses) x
               / riskDenom m.graph.numLNLs m.modalities pX
                 (riskObs m.graph.numLNLs m.modalities diagnoses)))) := rfl
  rw [hstep, hprior]

/-- C8 is too strong as stated: with one pathological modality
(`sp = sn = 1`), the complete diagnosis `[involved]` and diagnose time 0, the
prior puts all mass on the all-healthy state, the probability `cZ @ pZ` of
the diagnosis is zero, and `risk` with `inv = None` divides by it: in exact
arithmetic with the `0/0 = 0` convention the result is `[0, 0]` (numpy
returns `[nan, nan]`), which does not sum to 1. -/
theorem claim_risk_counterexample :
    risk (UniModel.mk (oneLNLGraph (1/2)) [Modality.mk "path" 1 1]) none none
        [("path", [some true])] (some ((0:ℕ) : ℤ)) none Mode.HMM
      = Except.ok (RiskResult.vec [0, 0])
    ∧ ¬ ([(0:ℚ), 0].sum = 1) := by
  constructor
  · have hpX0 : ∀ p : ℚ, evolveAt (oneLNLGraph p) 0 0 = 1 := fun p => by
      simp [evolveAt, oneLNLGraph, vecMat, matPow, matId, startVec,
        Finset.sum_range_succ]
    have hpX1 : ∀ p : ℚ, evolveAt (oneLNLGraph p) 0 1 = 0 := fun p => by
      simp [evolveAt, oneLNLGraph, vecMat, matPow, matId, startVec,
        Finset.sum_range_succ]
    have hB01 : Bmat 1 [Modality.mk "path" 1 1] 0 1 = 0 := by
      simp [Bmat, obs_prob, stateOf, obsListRow, digit2, range_one_eq]
    have hB11 : Bmat 1 [Modality.mk "path" 1 1] 1 1 = 1 := by
      simp [Bmat, obs_prob, stateOf, obsListRow, digit2, range_one_eq]
    have hcz : encodingVec 1 1 [some true] = [false, true] := by decide
    have hden : riskDenom 1 [Modality.mk "path" 1 1]
        (evolveAt (oneLNLGraph (1/2)) 0) [some true] = 0 := by
      simp [riskDenom, Finset.sum_range_succ, hcz, hpX0, hpX1, hB01, hB11]
    have hobs : riskObs 1 [Modality.mk "path" (1:ℚ) 1] [("path", [some true])]
        = [some true] := riskObs_single 1 "path" 1 1 [some true]
    rw [risk_eval (UniModel.mk (oneLNLGraph (1/2)) [Modality.mk "path" 1 1])
      [("path", [some true])] 0]
    show Except.ok (RiskResult.vec ((List.range (2 ^ 1)).map fun x =>
        riskNum 1 [Modality.mk "path" 1 1] (evolveAt (oneLNLGraph (1/2)) 0)
            (riskObs 1 [Modality.mk "path" 1 1] [("path", [some true])]) x
          / riskDenom 1 [Modality.mk "path" 1 1] (evolveAt (oneLNLGraph (1/2)) 0)
            (riskObs 1 [Modality.mk "path" 1 1] [("path", [some true])])))
      = Except.ok (RiskResult.vec [0, 0])
    rw [hobs, hden]
    norm_num [List.range_succ]
  · norm_num

/-- C8 (amended): for a model with exactly one registered modality and a
complete diagnosis for it, the observation-encoding vector built inside
`Unilateral.risk` has exactly one nonzero entry; and whenever the probability
`cZ @ pZ` of that diagnosis is nonzero, `risk` with `inv = None` returns a
vector over all `2^L` hidden states whose entries sum to 1. -/
theorem claim_risk_encoding (m : UniModel) (name : String) (sp sn : ℚ)
    (diag : List (Option Bool)) (t : ℕ)
    (hmods : m.modalities = [Modality.mk name sp sn])
    (hlen : diag.length = m.graph.numLNLs)
    (hcomplete : ∀ o ∈ diag, o.isSome) :
    (encodingVec m.graph.numLNLs 1 diag).count true = 1
    ∧ (riskDenom m.graph.numLNLs m.modalities (evolveAt m.graph t) diag ≠ 0 →
        ∃ v : List ℚ,
          risk m none none [(name, diag)] (some (t : ℤ)) none Mode.HMM
            = Except.ok (RiskResult.vec v)
          ∧ v.length = 2 ^ m.graph.numLNLs
          ∧ v.sum = 1) := by
  constructor
  · exact encodingVec_count_one m.graph.numLNLs diag hlen hcomplete
  · intro hD
    have hobs : riskObs m.graph.numLNLs m.modalities [(name, diag)] = diag := by
      rw [hmods]
      exact riskObs_single m.graph.numLNLs name sp sn diag
    refine ⟨(List.range (2 ^ m.graph.numLNLs)).map fun x =>
        riskNum m.graph.numLNLs m.modalities (evolveAt m.graph t) diag x
          / riskDenom m.graph.numLNLs m.modalities (evolveAt m.graph t) diag,
      ?_, by simp, ?_⟩
    · rw [risk_eval m [(name, diag)] t, hobs]
    · rw [← sum_range_map, ← Finset.sum_div, riskNum_sum_eq_denom, div_self hD]

theorem claim_risk_encoding_witness :
    (encodingVec 1 1 [some true]).count true = 1
    ∧ (riskDenom 1 [Modality.mk "path" 1 1]
          (evolveAt (oneLNLGraph (1/2)) 0) [some true] ≠ 0 →
        ∃ v : List ℚ,
          risk (UniModel.mk (oneLNLGraph (1/2)) [Modality.mk "path" 1 1]) none none
              [("path", [some true])] (some ((0:ℕ) : ℤ)) none Mode.HMM
            = Except.ok (RiskResult.vec v)
          ∧ v.length = 2 ^ 1
          ∧ v.sum = 1) :=
  claim_risk_encoding (UniModel.mk (oneLNLGraph (1/2)) [Modality.mk "path" 1 1])
    "path" 1 1 [some true] 0 rfl rfl (by decide)

/-! ### `Unilateral.log_likelihood` and its validity guards (claim C3) -/

/-- `np.around(x).astype(int)`: round half to even, then convert the
integer-valued float to an int. -/
def npRound (q : ℚ) : ℤ :=
  if q - ⌊q⌋ < 1/2 then ⌊q⌋
  else if 1/2 < q - ⌊q⌋ then ⌊q⌋ + 1
  else if ⌊q⌋ % 2 = 0 then ⌊q⌋ else ⌊q⌋ + 1

/-- The value of `log_likelihood`: `-np.inf`, or a finite value represented
by the per-stage pairs of frequency vector `f[stage]` and probability vector
`p = state_probs[stage] @ B @ C[stage]` entering `f @ np.log(p)` (the
logarithm itself is not modelled; the claims only distinguish the `-inf` and
exception outcomes from finite ones, and the finite value is a function of
these pairs). -/
inductive LLH where
  | neginf : LLH
  | finite (terms : List (List ℕ × List ℚ)) : LLH
deriving DecidableEq

/-- `Unilateral._spread_probs_are_valid`: raise on a shape mismatch, then
report whether all entries lie in `[0, 1]`. -/
def spread_probs_are_valid (g : Graph) (ps : List ℚ) : Except String Bool :=
  if ps.length ≠ (spread_probs g).length
  then Except.error "ValueError: Shape of provided spread parameters does not match network"
  else if ps.any fun p => decide (p < 0) then Except.ok false
  else if ps.any fun p => decide (1 < p) then Except.ok false
  else Except.ok true

/-- Entry `k` of `p = sp @ B @ C[stage]`, where `sp` is the state
distribution of the stage and `col` is column `k` of the 0/1 data matrix. -/
def stageProb (L : ℕ) (mods : List Modality) (sp : ℕ → ℚ) (col : List Bool) : ℚ :=
  ∑ z ∈ Finset.range (2 ^ (mods.length * L)),
    (∑ x ∈ Finset.range (2 ^ L), sp x * Bmat L mods x z)
      * (if col.getD z false then (1:ℚ) else 0)

/-- The first loop of the HMM branch with explicit `diag_times`: walk the
T-stages in order, look each stage's diagnose time up (a missing key raises),
return `-inf` (`none`) as soon as a rounded time exceeds `max_t`, and
otherwise evolve to the rounded time (negative times reach
`matrix_power` with a negative exponent, an error in this model). -/
def gatherStateProbs (g : Graph) (dts : List (String × ℚ)) (max_t : ℤ) :
    List String → Except String (Option (List (String × (ℕ → ℚ))))
  | [] => Except.ok (some [])
  | s :: rest =>
    match dts.lookup s with
    | none => Except.error ("KeyError: " ++ s)
    | some q =>
      if max_t < npRound q then Except.ok none
      else
        match evolveZ g (npRound q) with
        | Except.error msg => Except.error msg
        | Except.ok sp =>
          match gatherStateProbs g dts max_t rest with
          | Except.error msg => Except.error msg
          | Except.ok none => Except.ok none
          | Except.ok (some acc) => Except.ok (some ((s, sp) :: acc))

/-- The first loop of the HMM branch with `time_dists`: each stage's state
distribution is its time distribution times the evolution rows `0..tmax`,
where `tmax + 1` is the length of the first stage's distribution (ragged
distribution lengths, on which numpy matmul would raise, are not modelled:
shorter rows are padded with zero weights). -/
def gatherMarginals (g : Graph) (tds : List (String × List ℚ)) (tmax : ℕ) :
    List String → Except String (List (String × (ℕ → ℚ)))
  | [] => Except.ok []
  | s :: rest =>
    match tds.lookup s with
    | none => Except.error ("KeyError: " ++ s)
    | some d =>
      match gatherMarginals g tds tmax rest with
      | Except.error msg => Except.error msg
      | Except.ok acc =>
        Except.ok ((s, fun x =>
          ((List.range (tmax + 1)).map fun t => d.getD t 0 * evolveAt g t x).sum) :: acc)

/-- The second loop of the HMM branch: for each stage, look up its state
distribution and its data matrix and frequency vector (`self.C[stage]`,
`self.f[stage]`; a missing stage raises) and record the pair entering
`f @ np.log(p)`. -/
def stageTerms (L : ℕ) (mods : List Modality)
    (data : List (String × (List (List Bool) × List ℕ)))
    (sps : List (String × (ℕ → ℚ))) :
    List String → Except String (List (List ℕ × List ℚ))
  | [] => Except.ok []
  | s :: rest =>
    match sps.lookup s with
    | none => Except.error ("KeyError: " ++ s)
    | some sp =>
      match data.lookup s with
      | none => Except.error ("KeyError: " ++ s)
      | some cf =>
        match stageTerms L mods data sps rest with
        | Except.error msg => Except.error msg
        | Except.ok acc =>
          Except.ok ((cf.2, cf.1.map (stageProb L mods sp)) :: acc)

/-- The body of `log_likelihood` after the parameter check and assignment:
the HMM branch (with its `t_stages = None` path reading the attribute
`self.f_dict`, which `Unilateral` does not have, its length guards and its
two loops) and the BN branch. -/
def llh_main (mods : List Modality)
    (data : List (String × (List (List Bool) × List ℕ))) (g : Graph)
    (t_stages : Option (List String)) (diag_times : Option (List (String × ℚ)))
    (max_t : ℤ) (time_dists : Option (List (String × List ℚ))) (mode : Mode) :
    Except String LLH :=
  match mode with
  | Mode.HMM =>
    match t_stages with
    | none => Except.error "AttributeError: Unilateral object has no attribute f_dict"
    | some stages =>
      match diag_times with
      | some dts =>
        if dts.length ≠ stages.length
        then Except.error "ValueError: One diagnose time must be provided for each T-stage."
        else
          match gatherStateProbs g dts max_t stages with
          | Except.error msg => Except.error msg
          | Except.ok none => Except.ok LLH.neginf
          | Except.ok (some sps) =>
            match stageTerms g.numLNLs mods data sps stages with
            | Except.error msg => Except.error msg
            | Except.ok terms => Except.ok (LLH.finite terms)
      | none =>
        match time_dists with
        | some tds =>
          if tds.length ≠ stages.length
          then Except.error "ValueError: One distribution over diagnose times must be provided for each T-stage."
          else
            match stages with
            | [] => Except.error "IndexError: list index out of range"
            | s0 :: _ =>
              match tds.lookup s0 with
              | none => Except.error ("KeyError: " ++ s0)
              | some d0 =>
                if d0.length = 0
                then Except.error "ValueError: Starting time must be smaller than ending time."
                else
                  match gatherMarginals g tds (d0.length - 1) stages with
                  | Except.error msg => Except.error msg
                  | Except.ok sps =>
                    match stageTerms g.numLNLs mods data sps stages with
                    | Except.error msg => Except.error msg
                    | Except.ok terms => Except.ok (LLH.finite terms)
        | none =>
          Except.error "ValueError: Either provide a list of diagnose times for each T-stage or a distribution over diagnose times for each T-stage."
  | Mode.BN =>
    match data.lookup "BN" with
    | none => Except.error "KeyError: BN"
    | some cf =>
      Except.ok (LLH.finite
        [(cf.2, cf.1.map (stageProb g.numLNLs mods (bnStateDist g)))])

/-- `Unilateral.log_likelihood`: check the spread parameters (shape mismatch
raises, an out-of-range entry returns `-inf`), assign them, then run the
mode-specific branch. The loaded data (`self.C` / `self.f`) is the `data`
association list from stage to (data matrix columns, frequency vector). -/
def log_likelihood (m : UniModel)
    (data : List (String × (List (List Bool) × List ℕ))) (ps : List ℚ)
    (t_stages : Option (List String)) (diag_times : Option (List (String × ℚ)))
    (max_t : ℤ) (time_dists : Option (List (String × List ℚ))) (mode : Mode) :
    Except String LLH :=
  match spread_probs_are_valid m.graph ps with
  | Except.error msg => Except.error msg
  | Except.ok false => Except.ok LLH.neginf
  | Except.ok true =>
    match setSpreadProbs m.graph ps with
    | Except.error msg => Except.error msg
    | Except.ok g =>
      llh_main m.modalities data g t_stages diag_times max_t time_dists mode

theorem npRound_intCast (n : ℤ) : npRound (n : ℚ) = n := by
  unfold npRound
  rw [Int.floor_intCast, if_pos (by rw [sub_self]; norm_num)]

theorem npRound_twenty : npRound (20 : ℚ) = 20 := by
  have h := npRound_intCast 20
  norm_num at h
  exact h

theorem gatherStateProbs_none (g : Graph) (dts : List (String × ℚ)) (max_t : ℤ) :
    ∀ stages : List String,
    (∀ s ∈ stages, ∃ q, dts.lookup s = some q ∧ 0 ≤ npRound q) →
    (∃ s ∈ stages, ∃ q, dts.lookup s = some q ∧ max_t < npRound q) →
    gatherStateProbs g dts max_t stages = Except.ok none
  | [], _, hex => by simp at hex
  | s :: rest, htotal, hex => by
    obtain ⟨q, hq, hq0⟩ := htotal s (by simp)
    show (match dts.lookup s with
      | none => Except.error ("KeyError: " ++ s)
      | some q =>
        if max_t < npRound q then Except.ok none
        else
          match evolveZ g (npRound q) with
          | Except.error msg => Except.error msg
          | Except.ok sp =>
            match gatherStateProbs g dts max_t rest with
            | Except.error msg => Except.error msg
            | Except.ok none => Except.ok none
            | Except.ok (some acc) => Except.ok (some ((s, sp) :: acc)))
      = Except.ok none
    rw [hq]
    show (if max_t < npRound q then Except.ok none
      else
        match evolveZ g (npRound q) with
        | Except.error msg => Except.error msg
        | Except.ok sp =>
          match gatherStateProbs g dts max_t rest with
          | Except.error msg => Except.error msg
          | Except.ok none => Except.ok none
          | Except.ok (some acc) => Except.ok (some ((s, sp) :: acc)))
      = Except.ok none
    by_cases hgt : max_t < npRound q
    · rw [if_pos hgt]
    · rw [if_neg hgt]
      have hev : evolveZ g (npRound q) = Except.ok (evolveAt g (npRound q).toNat) := by
        unfold evolveZ
        rw [if_pos hq0]
      rw [hev]
      have hrest : ∃ s2 ∈ rest, ∃ q2, dts.lookup s2 = some q2 ∧ max_t < npRound q2 := by
        obtain ⟨s2, hs2, q2, hq2, hq2t⟩ := hex
        rcases List.mem_cons.1 hs2 with h | h
        · subst h
          rw [hq] at hq2
          injection hq2 with hqq
          subst hqq
          exact absurd hq2t hgt
        · exact ⟨s2, h, q2, hq2, hq2t⟩
      rw [gatherStateProbs_none g dts max_t rest
        (fun s2 hs2 => htotal s2 (by simp [hs2])) hrest]

/-- C3 is too strong as stated: in HMM mode with explicit `diag_times` but
`t_stages` left at its default `None`, `log_likelihood` reads
`self.f_dict`, an attribute `Unilateral` does not have (the class only has
`f`), and raises `AttributeError` before any diagnose time is compared with
`max_t` — here with a rounded diagnose time 20 exceeding `max_t = 10`, where
the claim promises `-inf` and no exception. -/
theorem claim_log_likelihood_counterexample :
    log_likelihood (UniModel.mk (oneLNLGraph 1) [Modality.mk "path" 1 1])
        [("early", ([[true, false]], [1]))] [1] none (some [("early", 20)])
        10 none Mode.HMM
      = Except.error "AttributeError: Unilateral object has no attribute f_dict"
    ∧ 10 < npRound 20 := by
  constructor
  · rfl
  · rw [npRound_twenty]
    norm_num

/-- C3 (amended): `log_likelihood` raises `ValueError` on a spread-parameter
vector whose shape does not match the network; with a matching shape it
returns `-inf` (and raises nothing) when any entry lies outside `[0, 1]`;
and in HMM mode with explicitly given T-stages and one nonnegative rounded
diagnose time per stage it returns `-inf` (and raises nothing) when any
stage's rounded diagnose time exceeds `max_t`. With `t_stages = None` the
HMM branch instead raises `AttributeError` (see the counterexample). -/
theorem claim_log_likelihood_guards (m : UniModel)
    (data : List (String × (List (List Bool) × List ℕ))) (ps : List ℚ)
    (t_stages : Option (List String)) (diag_times : Option (List (String × ℚ)))
    (max_t : ℤ) (time_dists : Option (List (String × List ℚ))) (mode : Mode) :
    (ps.length ≠ (spread_probs m.graph).length →
      log_likelihood m data ps t_stages diag_times max_t time_dists mode
        = Except.error "ValueError: Shape of provided spread parameters does not match network")
    ∧ (ps.length = (spread_probs m.graph).length →
        (∃ p ∈ ps, p < 0 ∨ 1 < p) →
        log_likelihood m data ps t_stages diag_times max_t time_dists mode
          = Except.ok LLH.neginf)
    ∧ (∀ (stages : List String) (dts : List (String × ℚ)),
        t_stages = some stages → diag_times = some dts → mode = Mode.HMM →
        ps.length = (spread_probs m.graph).length →
        (∀ p ∈ ps, 0 ≤ p ∧ p ≤ 1) →
        dts.length = stages.length →
        (∀ s ∈ stages, ∃ q, dts.lookup s = some q ∧ 0 ≤ npRound q) →
        (∃ s ∈ stages, ∃ q, dts.lookup s = some q ∧ max_t < npRound q) →
        log_likelihood m data ps t_stages diag_times max_t time_dists mode
          = Except.ok LLH.neginf) := by
  refine ⟨?_, ?_, ?_⟩
  · intro h
    have hv : spread_probs_are_valid m.graph ps
        = Except.error "ValueError: Shape of provided spread parameters does not match network" := by
      unfold spread_probs_are_valid
      rw [if_pos h]
    unfold log_likelihood
    rw [hv]
  · intro hlen hex
    have hv : spread_probs_are_valid m.graph ps = Except.ok false := by
      unfold spread_probs_are_valid
      obtain ⟨p, hp, hcase⟩ := hex
      rcases hcase with h0 | h1
      · rw [if_neg (not_not_intro hlen),
          if_pos (List.any_eq_true.2 ⟨p, hp, by simp [h0]⟩)]
      · by_cases hneg : ps.any (fun x => decide (x < 0)) = true
        · rw [if_neg (not_not_intro hlen), if_pos hneg]
        · rw [if_neg (not_not_intro hlen), if_neg hneg,
            if_pos (List.any_eq_true.2 ⟨p, hp, by simp [h1]⟩)]
    unfold log_likelihood
    rw [hv]
  · intro stages dts hts hdt hmode hlen hvalid hlens htotal hex
    subst hts
    subst hdt
    subst hmode
    have hv : spread_probs_are_valid m.graph ps = Except.ok true := by
      unfold spread_probs_are_valid
      have h1 : ¬ ps.any (fun x => decide (x < 0)) = true := by
        intro hcontra
        obtain ⟨x, hx, hxlt⟩ := List.any_eq_true.1 hcontra
        rw [decide_eq_true_eq] at hxlt
        exact absurd hxlt (not_lt.2 (hvalid x hx).1)
      have h2 : ¬ ps.any (fun x => decide (1 < x)) = true := by
        intro hcontra
        obtain ⟨x, hx, hxlt⟩ := List.any_eq_true.1 hcontra
        rw [decide_eq_true_eq] at hxlt
        exact absurd hxlt (not_lt.2 (hvalid x hx).2)
      rw [if_neg (not_not_intro hlen), if_neg h1, if_neg h2]
    obtain ⟨g2, hg2⟩ := setSpreadProbs_ok m.graph ps hlen
    have hmain : llh_main m.modalities data g2 (some stages) (some dts)
        max_t time_dists Mode.HMM = Except.ok LLH.neginf := by
      show (if dts.length ≠ stages.length
        then Except.error "ValueError: One diagnose time must be provided for each T-stage."
        else
          match gatherStateProbs g2 dts max_t stages with
          | Except.error msg => Except.error msg
          | Except.ok none => Except.ok LLH.neginf
          | Except.ok (some sps) =>
            match stageTerms g2.numLNLs m.modalities data sps stages with
            | Except.error msg => Except.error msg
            | Except.ok terms => Except.ok (LLH.finite terms))
        = Except.ok LLH.neginf
      rw [if_neg (not_not_intro hlens),
        gatherStateProbs_none g2 dts max_t stages htotal hex]
    unfold log_likelihood
    rw [hv, hg2]
    exact hmain

theorem claim_log_likelihood_guards_witness :
    log_likelihood (UniModel.mk (oneLNLGraph 1) [Modality.mk "path" 1 1])
        [("early", ([[true, false]], [1]))] [1] (some ["early"])
        (some [("early", 20)]) 10 none Mode.HMM
      = Except.ok LLH.neginf := by
  refine (claim_log_likelihood_guards (UniModel.mk (oneLNLGraph 1) [Modality.mk "path" 1 1])
      [("early", ([[true, false]], [1]))] [1] (some ["early"])
      (some [("early", 20)]) 10 none Mode.HMM).2.2 ["early"] [("early", 20)]
    rfl rfl rfl rfl ?_ rfl ?_ ?_
  · intro p hp
    rw [List.mem_singleton] at hp
    subst hp
    norm_num
  · intro s hs
    rw [List.mem_singleton] at hs
    subst hs
    refine ⟨20, by simp [List.lookup], ?_⟩
    rw [npRound_twenty]
    norm_num
  · refine ⟨"early", by simp, 20, by simp [List.lookup], ?_⟩
    rw [npRound_twenty]
    norm_num

end LymphVerif